import Mathlib

/-!
Verification of the incremental backup engine of `backup_script.py`.

The development shallowly embeds the functions `find_latest_backup` and
`run_backup` of the source file.  Filesystem interaction is modelled with
explicit oracles: a directory listing is a list of entries, the outcome of
each fallible system call (`os.path.getsize`, `os.makedirs`,
`shutil.copy2`, `os.listdir`, writing the log) is an input to the model,
and every mutation the run performs is recorded in an explicit effect
trace.  Messages are modelled as the source's strings with the surrounding
single quotes and the interpolated exception texts dropped; standard
output progress lines are not tracked, and of the standard error
diagnostics only the ones claims refer to (size-check warning, snapshot
listing failure, log-write failure) are tracked.
-/

/-- Model of `os.path.join(a, b)` for the relative, slash-free components
this program joins. -/
def joinPath (a b : String) : String := a ++ ("/") ++ b

/-! ## Timestamp parsing: `datetime.strptime(entry, %Y-%m-%d_%H-%M-%S)`

CPython's `strptime` matches `%Y` against exactly four digits and the
other fields against one or two digits with their numeric ranges, requires
the whole string to be consumed, and then `datetime`'s constructor
rejects out-of-range dates (day beyond the month's length, year 0,
seconds 60 and 61).  The parser below reproduces that acceptance. -/

/-- Splits a leading run of decimal digits off a character list. -/
def takeDigits : List Char → List Char × List Char
  | [] => ([], [])
  | c :: cs =>
    if c.isDigit then
      let p := takeDigits cs
      (c :: p.1, p.2)
    else ([], c :: cs)

/-- Numeric value of a list of decimal digit characters. -/
def digitsVal (ds : List Char) : Nat :=
  ds.foldl (fun a c => a * 10 + (c.toNat - 48)) 0

/-- Gregorian leap-year rule used by `datetime`. -/
def isLeapYear (y : Nat) : Bool :=
  y % 4 == 0 && (y % 100 != 0 || y % 400 == 0)

/-- Length of month `m` in year `y`, as `datetime` validates days. -/
def daysInMonth (y m : Nat) : Nat :=
  if m == 2 then (if isLeapYear y then 29 else 28)
  else if m == 4 || m == 6 || m == 9 || m == 11 then 30
  else 31

/-- A field of one or two digits, as `strptime` matches `%m`, `%d`, `%H`,
`%M`, `%S`. -/
def fieldLenOk (ds : List Char) : Bool :=
  ds.length == 1 || ds.length == 2

/-- Model of `datetime.strptime(s, %Y-%m-%d_%H-%M-%S)`:
`some (y, mo, d, h, mi, sec)` when the call succeeds, `none` when it
raises `ValueError`. -/
def parseTimestamp (s : String) : Option (Nat × Nat × Nat × Nat × Nat × Nat) :=
  let p1 := takeDigits s.data
  match p1.2 with
  | '-' :: r1 =>
    let p2 := takeDigits r1
    match p2.2 with
    | '-' :: r2 =>
      let p3 := takeDigits r2
      match p3.2 with
      | '_' :: r3 =>
        let p4 := takeDigits r3
        match p4.2 with
        | '-' :: r4 =>
          let p5 := takeDigits r4
          match p5.2 with
          | '-' :: r5 =>
            let p6 := takeDigits r5
            if p6.2.isEmpty && p1.1.length == 4 && fieldLenOk p2.1 &&
                fieldLenOk p3.1 && fieldLenOk p4.1 && fieldLenOk p5.1 &&
                fieldLenOk p6.1 then
              let y := digitsVal p1.1
              let mo := digitsVal p2.1
              let d := digitsVal p3.1
              let h := digitsVal p4.1
              let mi := digitsVal p5.1
              let sec := digitsVal p6.1
              if 1 ≤ y ∧ 1 ≤ mo ∧ mo ≤ 12 ∧ 1 ≤ d ∧ d ≤ daysInMonth y mo ∧
                  h ≤ 23 ∧ mi ≤ 59 ∧ sec ≤ 59 then
                some (y, mo, d, h, mi, sec)
              else none
            else none
          | _ => none
        | _ => none
      | _ => none
    | _ => none
  | _ => none

/-- Whether a directory name parses as a backup timestamp, i.e. the
`try/except ValueError` around `strptime` keeps the entry. -/
def strptimeOk (s : String) : Bool := (parseTimestamp s).isSome

/-! ## Descending sort of names: `backup_folders.sort(reverse=True)`

Python sorts strings lexicographically by code point.  The insertion sort
below produces the same descending sorted list; the run only consumes its
head. -/

/-- Lexicographic comparison of character lists by code point. -/
def charListLe : List Char → List Char → Bool
  | [], _ => true
  | _ :: _, [] => false
  | a :: as, b :: bs =>
    if a.toNat < b.toNat then true
    else if b.toNat < a.toNat then false
    else charListLe as bs

/-- Boolean string comparison used for sorting, Python's `<=` on `str`:
lexicographic by code point. -/
def strLe (a b : String) : Bool := charListLe a.data b.data

/-- Inserts into a descending-sorted list keeping it descending. -/
def insertDesc (x : String) : List String → List String
  | [] => [x]
  | y :: ys => if strLe y x then x :: y :: ys else y :: insertDesc x ys

/-- Sorts a list of names in descending lexicographic order, the model of
`backup_folders.sort(reverse=True)`. -/
def sortDesc (l : List String) : List String := l.foldr insertDesc []

/-- The descending-lexicographic maximum of a list of names, used to
state what the head of the descending sort is. -/
def listMaxStr : List String → Option String
  | [] => none
  | x :: xs =>
    some (match listMaxStr xs with
          | none => x
          | some m => if strLe m x then x else m)

/-! ## The snapshot store: `find_latest_backup` -/

/-- One entry of the destination directory listing: its name, whether
`os.path.isdir` holds, and (for snapshot directories) the relative paths
of the files present inside it, used by the baseline `os.path.exists`
check. -/
structure DirEntry where
  name : String
  isDir : Bool
  files : List String
deriving DecidableEq

/-- The names `find_latest_backup` retains: directory entries whose name
parses as a timestamp, in listing order. -/
def qualNames (entries : List DirEntry) : List String :=
  (entries.filter (fun e => e.isDir && strptimeOk e.name)).map (fun e => e.name)

/-- The name of the latest backup folder: head of the descending sort of
the qualifying names. -/
def findLatestName (entries : List DirEntry) : Option String :=
  (sortDesc (qualNames entries)).head?

/-- Model of `find_latest_backup(destination_dir)` over a successful
listing of `destination_dir`: the path of the most recent backup folder,
or `None`. -/
def find_latest_backup (dest : String) (entries : List DirEntry) : Option String :=
  (findLatestName entries).map (fun n => joinPath dest n)

/-! ## The per-file decision: lines 111 to 125 of `run_backup`

`decidePhase` embeds the incremental comparison block.  Its inputs are the
mode, whether a latest backup directory was found, the result of
`os.path.exists(latest_backup_file)`, and the outcome of the two
`os.path.getsize` calls: `some (s, b)` with the two byte sizes, or `none`
when one of them raised `OSError`. -/

/-- Outcome of the comparison block: skip the copy, or fall through to it. -/
inductive Decision where
  | copy
  | skipIdentical
deriving DecidableEq

/-- What the comparison block produces: the decision, the appended
run-log lines and the emitted standard error warnings. -/
structure DecideOut where
  decision : Decision
  logAdd : List String
  stderrAdd : List String
deriving DecidableEq

/-- Log line for a skipped identical file. -/
def skipIdenticalMsg (rel : String) : String :=
  ("Skipped identical file: ") ++ rel

/-- Log line for a file whose size changed. -/
def updatedMsg (rel : String) : String :=
  ("Found updated file: ") ++ rel

/-- Standard error warning when a size lookup raises `OSError`. -/
def sizeErrMsg (rel : String) : String :=
  ("Error checking file size for ") ++ rel ++ (". Copying anyway.")

/-- Model of lines 111 to 125: `if not full_backup and latest_backup_dir:`
then the exists check, the size comparison inside `try`, and the
`except OSError` that copies anyway with a warning. -/
def decidePhase (full latestIsSome existsInBaseline : Bool)
    (sizes : Option (Nat × Nat)) (rel : String) : DecideOut :=
  if !full && latestIsSome then
    if existsInBaseline then
      match sizes with
      | some (s, b) =>
        if s == b then ⟨Decision.skipIdentical, [skipIdenticalMsg rel], []⟩
        else ⟨Decision.copy, [updatedMsg rel], []⟩
      | none => ⟨Decision.copy, [], [sizeErrMsg rel]⟩
    else ⟨Decision.copy, [], []⟩
  else ⟨Decision.copy, [], []⟩

/-! ## The traversal loop: lines 103 to 152 of `run_backup` -/

/-- Outcome of `shutil.copy2` for one file. -/
inductive CopyOutcome where
  | ok
  | sameFile
  | permission
  | otherError (msg : String)
deriving DecidableEq

/-- What happened to one file, recorded in traversal order. -/
inductive FileAction where
  | copied
  | wouldCopy
  | skippedIdentical
  | skippedSameFile
  | skippedPermission
  | skippedError
deriving DecidableEq

/-- A destination-tree mutation performed by the run. -/
inductive Effect where
  | createDir (path : String)
  | copyFile (src dst : String)
  | writeLogFile (path : String) (lines : List String)
deriving DecidableEq

/-- Whether an effect copies file content. -/
def Effect.isCopy : Effect → Bool
  | Effect.copyFile _ _ => true
  | _ => false

/-- Whether an effect writes the run log. -/
def Effect.isLogWrite : Effect → Bool
  | Effect.writeLogFile _ _ => true
  | _ => false

/-- One regular file yielded by `os.walk`, with the oracles for the
fallible calls made while processing it: `parentRel` is
`os.path.dirname(relative_path)` (empty for a top-level file), `sizes`
the `os.path.getsize` outcome if consulted, `mkdirOk` whether
`os.makedirs(os.path.dirname(destination_file))` succeeds, and
`copyOutcome` what `shutil.copy2` does. -/
structure FileEntry where
  relPath : String
  parentRel : String
  sizes : Option (Nat × Nat)
  mkdirOk : Bool
  copyOutcome : CopyOutcome
deriving DecidableEq

/-- The run record: the three counters, the accumulated log and tracked
standard error lines, the per-file action trace, the destination
directories known to exist under the snapshot root, and the mutation
trace. -/
structure RunState where
  totalFiles : Nat
  filesToCopy : Nat
  filesSkipped : Nat
  logMessages : List String
  stderrMessages : List String
  actions : List (String × FileAction)
  dirsPresent : List String
  effects : List Effect
deriving DecidableEq

/-- The per-run constants the loop body reads. -/
structure Cfg where
  full : Bool
  dry : Bool
  latestIsSome : Bool
  baselineHas : String → Bool
  sourceDir : String
  backupPath : String

/-- Log line for a copied file. -/
def copiedMsg (rel : String) : String := ("Copied: ") ++ rel

/-- Log line for a same-file collision. -/
def sameFileMsg (rel : String) : String :=
  ("Warning: Skipped ") ++ rel ++ (" because it already exists in the destination.")

/-- Log line for a permission failure. -/
def permissionMsg (rel : String) : String :=
  ("Permission denied. Skipped: ") ++ rel

/-- Log line for any other copy failure. -/
def otherErrMsg (rel e : String) : String :=
  ("Unexpected error. Skipped: ") ++ rel ++ (" due to error: ") ++ e

/-- Log line for a dry-run would-be copy. -/
def dryWouldCopyMsg (rel : String) : String :=
  ("(Dry Run) Would copy: ") ++ rel

/-- Model of the loop body, lines 104 to 152: count the file, run the
comparison block, then (unless skipping) `os.makedirs` on the parent of
the destination file — whose failure is UNCAUGHT in the source and aborts
the run, modelled as `Except.error` carrying the state at the raise —
then the guarded `shutil.copy2` with its `except` arms, or the dry-run
branch. -/
def processFile (cfg : Cfg) (st : RunState) (f : FileEntry) : Except RunState RunState :=
  let st1 := { st with totalFiles := st.totalFiles + 1 }
  let d := decidePhase cfg.full cfg.latestIsSome (cfg.baselineHas f.relPath)
    f.sizes f.relPath
  let st2 := { st1 with logMessages := st1.logMessages ++ d.logAdd,
                        stderrMessages := st1.stderrMessages ++ d.stderrAdd }
  match d.decision with
  | Decision.skipIdentical =>
    Except.ok { st2 with filesSkipped := st2.filesSkipped + 1,
                         actions := st2.actions ++ [(f.relPath, FileAction.skippedIdentical)] }
  | Decision.copy =>
    if f.mkdirOk = false then Except.error st2
    else
      let destDirPath := if f.parentRel = "" then cfg.backupPath
                         else joinPath cfg.backupPath f.parentRel
      let st3 := if st2.dirsPresent.contains destDirPath then st2
                 else { st2 with dirsPresent := destDirPath :: st2.dirsPresent,
                                 effects := st2.effects ++ [Effect.createDir destDirPath] }
      if cfg.dry then
        Except.ok { st3 with filesToCopy := st3.filesToCopy + 1,
                             logMessages := st3.logMessages ++ [dryWouldCopyMsg f.relPath],
                             actions := st3.actions ++ [(f.relPath, FileAction.wouldCopy)] }
      else
        match f.copyOutcome with
        | CopyOutcome.ok =>
          Except.ok { st3 with filesToCopy := st3.filesToCopy + 1,
                               logMessages := st3.logMessages ++ [copiedMsg f.relPath],
                               effects := st3.effects ++
                                 [Effect.copyFile (joinPath cfg.sourceDir f.relPath)
                                   (joinPath cfg.backupPath f.relPath)],
                               actions := st3.actions ++ [(f.relPath, FileAction.copied)] }
        | CopyOutcome.sameFile =>
          Except.ok { st3 with filesSkipped := st3.filesSkipped + 1,
                               logMessages := st3.logMessages ++ [sameFileMsg f.relPath],
                               actions := st3.actions ++ [(f.relPath, FileAction.skippedSameFile)] }
        | CopyOutcome.permission =>
          Except.ok { st3 with filesSkipped := st3.filesSkipped + 1,
                               logMessages := st3.logMessages ++ [permissionMsg f.relPath],
                               actions := st3.actions ++ [(f.relPath, FileAction.skippedPermission)] }
        | CopyOutcome.otherError m =>
          Except.ok { st3 with filesSkipped := st3.filesSkipped + 1,
                               logMessages := st3.logMessages ++ [otherErrMsg f.relPath m],
                               actions := st3.actions ++ [(f.relPath, FileAction.skippedError)] }

/-- The traversal: the loop over `os.walk`, short-circuiting on the
uncaught `os.makedirs` exception. -/
def processFiles (cfg : Cfg) : RunState → List FileEntry → Except RunState RunState
  | st, [] => Except.ok st
  | st, f :: fs =>
    match processFile cfg st f with
    | Except.error st2 => Except.error st2
    | Except.ok st2 => processFiles cfg st2 fs

/-! ## The orchestrator: `run_backup`, lines 57 to 174

The model's inputs bundle the run's arguments with the filesystem oracles:
whether the two path validations succeed, the `strftime` timestamp, the
pre-existing destination listing, whether creating the snapshot root and
listing the destination succeed, the walked files, and whether the log
write succeeds.  Note the source creates the snapshot root (line 81)
BEFORE calling `find_latest_backup` (line 90), so the listing the
discovery sees already contains the new, empty snapshot directory. -/

/-- Arguments and filesystem oracles of one invocation of `run_backup`. -/
structure RunInput where
  sourceDir : String
  destDir : String
  fullBackup : Bool
  dryRun : Bool
  sourceIsDir : Bool
  destIsDir : Bool
  timestamp : String
  mkRootOk : Bool
  listdirOk : Bool
  destEntries : List DirEntry
  files : List FileEntry
  logWriteOk : Bool
deriving DecidableEq

/-- Result of a run: abort on path validation (line 60 or 63), abort on
snapshot-root creation failure (line 85), crash from the uncaught
`os.makedirs` at line 128, or completion of the traversal. -/
inductive RunResult where
  | invalid (diag : String)
  | mkRootFailed (diag : String)
  | crashed (st : RunState)
  | completed (st : RunState)
deriving DecidableEq

/-- Diagnostic for an invalid source path. -/
def srcInvalidMsg (p : String) : String :=
  ("Error: Source path ") ++ p ++ (" is not a valid directory.")

/-- Diagnostic for an invalid destination path. -/
def dstInvalidMsg (p : String) : String :=
  ("Error: Destination path ") ++ p ++ (" is not a valid directory.")

/-- Diagnostic for a snapshot-root creation failure. -/
def mkRootFailMsg (p : String) : String :=
  ("Error: Failed to create destination directory ") ++ p

/-- Log line recording the creation of the snapshot root. -/
def createdRootMsg (p : String) : String :=
  ("Created new backup directory: ") ++ p

/-- Log line naming the baseline of an incremental run. -/
def incrAgainstMsg (p : String) : String :=
  ("Performing incremental backup against: ") ++ p

/-- Log line recording degradation to a full backup. -/
def noPrevMsg : String :=
  "No previous backups found. Performing a full backup."

/-- Standard error diagnostic from `find_latest_backup` when the listing
fails. -/
def listdirErrMsg : String :=
  "Error: Could not find latest backup folder."

/-- Standard error diagnostic when writing the log file fails. -/
def logWriteFailMsg : String :=
  "Error: Could not write backup log file."

/-- The destination listing as seen after `os.makedirs(backup_path)`
succeeded: the pre-existing entries, plus the new empty snapshot
directory if no entry of that name was already present
(`exist_ok=True`). -/
def listingAfterCreate (entries : List DirEntry) (ts : String) : List DirEntry :=
  if entries.any (fun e => e.name == ts) then entries
  else entries ++ [⟨ts, true, []⟩]

/-- The name `find_latest_backup` returns inside the run (line 90),
`none` when the listing raised and the broad `except` returned `None`. -/
def runLatestName (inp : RunInput) : Option String :=
  if inp.listdirOk then findLatestName (listingAfterCreate inp.destEntries inp.timestamp)
  else none

/-- `latest_backup_dir` as a name: `None` in full mode (line 88), else
the discovery result. -/
def runLatestOpt (inp : RunInput) : Option String :=
  if inp.fullBackup then none else runLatestName inp

/-- The baseline membership test `os.path.exists(latest_backup_file)`:
whether the snapshot directory the discovery chose contains the relative
path.  `os.walk` yields each relative path once and the check precedes
the file's own copy, so the baseline contents are static for the run. -/
def runBaselineHas (inp : RunInput) : String → Bool := fun rel =>
  match runLatestOpt inp with
  | some n =>
    match (listingAfterCreate inp.destEntries inp.timestamp).find?
        (fun e => e.name == n) with
    | some e => e.files.contains rel
    | none => false
  | none => false

/-- The loop constants of the run. -/
def runCfg (inp : RunInput) : Cfg :=
  { full := inp.fullBackup, dry := inp.dryRun,
    latestIsSome := (runLatestOpt inp).isSome,
    baselineHas := runBaselineHas inp,
    sourceDir := inp.sourceDir,
    backupPath := joinPath inp.destDir inp.timestamp }

/-- The state after lines 77 to 96: the creation log line, the snapshot
root marked present, its creation effect when the directory is new, and
the incremental-mode baseline announcement or the degradation notice. -/
def initState (inp : RunInput) : RunState :=
  let backupPath := joinPath inp.destDir inp.timestamp
  let st0 : RunState :=
    { totalFiles := 0, filesToCopy := 0, filesSkipped := 0,
      logMessages := [createdRootMsg backupPath],
      stderrMessages := [],
      actions := [],
      dirsPresent := [backupPath],
      effects := if inp.destEntries.any (fun e => e.name == inp.timestamp) then []
                 else [Effect.createDir backupPath] }
  if inp.fullBackup then st0
  else
    match runLatestName inp with
    | some n =>
      { st0 with logMessages := st0.logMessages ++ [incrAgainstMsg (joinPath inp.destDir n)] }
    | none =>
      { st0 with logMessages := st0.logMessages ++ [noPrevMsg],
                 stderrMessages := if inp.listdirOk then [] else [listdirErrMsg] }

/-- The fixed header block written at lines 157 to 162: timestamp,
source, destination, backup type, dry-run flag, a blank line and the
actions separator. -/
def logHeaderLines (ts src dst : String) (full dry : Bool) : List String :=
  [("Backup Log: ") ++ ts,
   ("Source: ") ++ src,
   ("Destination: ") ++ dst,
   ("Backup Type: ") ++ (if full then "Full" else "Incremental"),
   ("Dry Run: ") ++ (if dry then "Yes" else "No"),
   "",
   "--- Actions ---"]

/-- The whole log file, one string per line: the header block followed by
every accumulated message in the order appended (lines 163 to 164). -/
def logLines (ts src dst : String) (full dry : Bool) (msgs : List String) : List String :=
  logHeaderLines ts src dst full dry ++ msgs

/-- Model of `run_backup(source_dir, destination_dir, full_backup,
dry_run)`: validate the two paths, create the timestamped snapshot root,
discover the baseline for incremental mode, traverse the files, then
write the log — a failure there only prints a diagnostic (lines 166
to 167). -/
def runFinish (inp : RunInput) (r : Except RunState RunState) : RunResult :=
  match r with
  | Except.error st => RunResult.crashed st
  | Except.ok st =>
    if inp.logWriteOk then
      RunResult.completed
        { st with effects := st.effects ++
            [Effect.writeLogFile (joinPath (joinPath inp.destDir inp.timestamp) ("backup_log.txt"))
              (logLines inp.timestamp inp.sourceDir inp.destDir inp.fullBackup inp.dryRun
                st.logMessages)] }
    else
      RunResult.completed
        { st with stderrMessages := st.stderrMessages ++ [logWriteFailMsg] }

def run_backup (inp : RunInput) : RunResult :=
  if inp.sourceIsDir = false then RunResult.invalid (srcInvalidMsg inp.sourceDir)
  else if inp.destIsDir = false then RunResult.invalid (dstInvalidMsg inp.destDir)
  else if inp.mkRootOk = false then
    RunResult.mkRootFailed (mkRootFailMsg (joinPath inp.destDir inp.timestamp))
  else runFinish inp (processFiles (runCfg inp) (initState inp) inp.files)

/-! ## Total accessors over run results, used to state the claims -/

/-- The state carried by a crashed or completed run. -/
def resultSt : RunResult → Option RunState
  | RunResult.crashed st => some st
  | RunResult.completed st => some st
  | _ => none

/-- The action trace of a run, empty when it aborted before traversal. -/
def actionsOf (r : RunResult) : List (String × FileAction) :=
  match resultSt r with
  | some st => st.actions
  | none => []

/-- The mutation trace of a run. -/
def effectsOf (r : RunResult) : List Effect :=
  match resultSt r with
  | some st => st.effects
  | none => []

/-- The accumulated log of a run. -/
def logOf (r : RunResult) : List String :=
  match resultSt r with
  | some st => st.logMessages
  | none => []

/-- The `total_files` counter of a run. -/
def totalOf (r : RunResult) : Nat :=
  match resultSt r with
  | some st => st.totalFiles
  | none => 0

/-- The `files_to_copy` counter of a run. -/
def copyCountOf (r : RunResult) : Nat :=
  match resultSt r with
  | some st => st.filesToCopy
  | none => 0

/-- The `files_skipped` counter of a run. -/
def skipCountOf (r : RunResult) : Nat :=
  match resultSt r with
  | some st => st.filesSkipped
  | none => 0

/-- Whether the run completed its traversal and printed the summary. -/
def isCompletedRun : RunResult → Bool
  | RunResult.completed _ => true
  | _ => false

/-- Whether the run crashed out of the traversal. -/
def isCrashedRun : RunResult → Bool
  | RunResult.crashed _ => true
  | _ => false

/-! ## Order lemmas for the code-point comparison -/

theorem charListLe_refl (l : List Char) : charListLe l l = true := by
  induction l with
  | nil => rfl
  | cons a as ih => simp [charListLe, ih]

theorem charListLe_total (a b : List Char) :
    charListLe a b = true ∨ charListLe b a = true := by
  induction a generalizing b with
  | nil => left; rfl
  | cons x xs ih =>
    cases b with
    | nil => right; rfl
    | cons y ys =>
      simp only [charListLe]
      by_cases h1 : x.toNat < y.toNat
      · left; simp [h1]
      · by_cases h2 : y.toNat < x.toNat
        · right; simp [h2]
        · have hxs := ih ys
          simp [h1, h2]
          exact hxs

theorem charListLe_trans (a b c : List Char) (h1 : charListLe a b = true)
    (h2 : charListLe b c = true) : charListLe a c = true := by
  induction a generalizing b c with
  | nil => rfl
  | cons x xs ih =>
    cases b with
    | nil => simp [charListLe] at h1
    | cons y ys =>
      cases c with
      | nil => simp [charListLe] at h2
      | cons z zs =>
        simp only [charListLe] at h1 h2 ⊢
        by_cases hxy : x.toNat < y.toNat
        · by_cases hyz : y.toNat < z.toNat
          · have hxz : x.toNat < z.toNat := Nat.lt_trans hxy hyz
            simp [hxz]
          · by_cases hzy : z.toNat < y.toNat
            · simp [hyz, hzy] at h2
            · have hxz : x.toNat < z.toNat := by omega
              simp [hxz]
        · by_cases hyx : y.toNat < x.toNat
          · simp [hxy, hyx] at h1
          · have h1b : charListLe xs ys = true := by simpa [hxy, hyx] using h1
            by_cases hyz : y.toNat < z.toNat
            · have hxz : x.toNat < z.toNat := by omega
              simp [hxz]
            · by_cases hzy : z.toNat < y.toNat
              · simp [hyz, hzy] at h2
              · have h2b : charListLe ys zs = true := by simpa [hyz, hzy] using h2
                have hxz : ¬ x.toNat < z.toNat := by omega
                have hzx : ¬ z.toNat < x.toNat := by omega
                simp [hxz, hzx]
                exact ih ys zs h1b h2b

theorem strLe_refl (a : String) : strLe a a = true := charListLe_refl a.data

theorem strLe_total (a b : String) : strLe a b = true ∨ strLe b a = true :=
  charListLe_total a.data b.data

theorem strLe_trans (a b c : String) (h1 : strLe a b = true)
    (h2 : strLe b c = true) : strLe a c = true :=
  charListLe_trans a.data b.data c.data h1 h2

/-! ## The head of the descending sort is the maximum -/

theorem insertDesc_head (x : String) (l : List String) :
    (insertDesc x l).head? = some (match l.head? with
      | none => x
      | some y => if strLe y x then x else y) := by
  cases l with
  | nil => rfl
  | cons y ys =>
    simp only [insertDesc]
    cases h : strLe y x <;> simp [h]

theorem head_sortDesc (l : List String) : (sortDesc l).head? = listMaxStr l := by
  induction l with
  | nil => rfl
  | cons x xs ih =>
    show (insertDesc x (sortDesc xs)).head? = _
    rw [insertDesc_head, ih]
    rfl

theorem listMaxStr_spec (l : List String) (m : String)
    (h : listMaxStr l = some m) :
    m ∈ l ∧ ∀ x ∈ l, strLe x m = true := by
  induction l generalizing m with
  | nil => cases h
  | cons x xs ih =>
    simp only [listMaxStr] at h
    cases hxs : listMaxStr xs with
    | none =>
      rw [hxs] at h
      have hx : xs = [] := by
        cases xs with
        | nil => rfl
        | cons a as => simp [listMaxStr] at hxs
      subst hx
      have hm : m = x := by simpa using h.symm
      subst hm
      refine ⟨List.mem_cons_self _ _, ?_⟩
      intro y hy
      simp at hy
      subst hy
      exact strLe_refl _
    | some mx =>
      rw [hxs] at h
      obtain ⟨hmem, hall⟩ := ih mx hxs
      by_cases hb : strLe mx x = true
      · have hm : m = x := by simpa [hb] using h.symm
        rw [hm]
        refine ⟨List.mem_cons_self _ _, ?_⟩
        intro y hy
        rcases List.mem_cons.mp hy with hy1 | hy2
        · subst hy1; exact strLe_refl _
        · exact strLe_trans _ _ _ (hall y hy2) hb
      · have hm : m = mx := by simpa [hb] using h.symm
        rw [hm]
        refine ⟨List.mem_cons_of_mem _ hmem, ?_⟩
        intro y hy
        rcases List.mem_cons.mp hy with hy1 | hy2
        · subst hy1
          rcases strLe_total y mx with ht | ht
          · exact ht
          · exact absurd ht hb
        · exact hall y hy2

theorem listMaxStr_none_iff (l : List String) :
    listMaxStr l = none ↔ l = [] := by
  cases l with
  | nil => simp [listMaxStr]
  | cons x xs => simp [listMaxStr]

/-- C4: `find_latest_backup` returns the path of the entry whose name is
the descending-lexicographic maximum among directory entries whose names
parse as the timestamp format; malformed names are silently excluded; it
returns the sentinel `none` exactly when no entry qualifies; and on a
destination holding `2024-01-01_00-00-00`, `2024-02-01_00-00-00` and
`archive` it returns `2024-02-01_00-00-00` and ignores `archive`. -/
theorem C4_find_latest_backup (dest : String) (entries : List DirEntry) :
    find_latest_backup dest entries =
      (listMaxStr (qualNames entries)).map (fun n => joinPath dest n)
    ∧ (∀ m, listMaxStr (qualNames entries) = some m →
        m ∈ qualNames entries ∧ ∀ x ∈ qualNames entries, strLe x m = true)
    ∧ (find_latest_backup dest entries = none ↔ qualNames entries = [])
    ∧ find_latest_backup ("dst")
        [⟨"2024-01-01_00-00-00", true, []⟩, ⟨"2024-02-01_00-00-00", true, []⟩,
         ⟨"archive", true, []⟩] = some (joinPath ("dst") ("2024-02-01_00-00-00")) := by
  refine ⟨?_, ?_, ?_, by decide⟩
  · unfold find_latest_backup findLatestName
    rw [head_sortDesc]
  · intro m hm
    exact listMaxStr_spec _ m hm
  · unfold find_latest_backup findLatestName
    rw [head_sortDesc]
    cases h : listMaxStr (qualNames entries) with
    | none => simpa [h] using (listMaxStr_none_iff _).mp h
    | some m =>
      simp [h]
      intro hq
      rw [hq] at h
      simp [listMaxStr] at h

/-- Witness for C4 at the concrete store of the claim. -/
theorem C4_witness :
    strLe ("2024-01-01_00-00-00") ("2024-02-01_00-00-00") = true ∧
    listMaxStr (qualNames
      [⟨"2024-01-01_00-00-00", true, []⟩, ⟨"2024-02-01_00-00-00", true, []⟩,
       ⟨"archive", true, []⟩]) = some ("2024-02-01_00-00-00") :=
  ⟨((C4_find_latest_backup ("dst")
      [⟨"2024-01-01_00-00-00", true, []⟩, ⟨"2024-02-01_00-00-00", true, []⟩,
       ⟨"archive", true, []⟩]).2.1 ("2024-02-01_00-00-00") (by decide)).2
      ("2024-01-01_00-00-00") (by decide),
   by decide⟩

/-- C1: the copy/skip decision of the comparison block.  With incremental
mode and a baseline present: a path absent from the baseline is copied; a
present path with equal sizes is skipped as identical; differing sizes
copy; a size-lookup failure copies and emits the warning, never a silent
skip.  In full mode, or with no baseline, the decision is always copy. -/
theorem C1_decision_policy (full latestIsSome existsB : Bool)
    (sizes : Option (Nat × Nat)) (rel : String) (n m : Nat) :
    (decidePhase false true false sizes rel).decision = Decision.copy
    ∧ (decidePhase false true true (some (n, n)) rel).decision = Decision.skipIdentical
    ∧ (n ≠ m → (decidePhase false true true (some (n, m)) rel).decision = Decision.copy)
    ∧ (decidePhase false true true none rel).decision = Decision.copy
    ∧ (decidePhase false true true none rel).stderrAdd = [sizeErrMsg rel]
    ∧ (decidePhase true latestIsSome existsB sizes rel).decision = Decision.copy
    ∧ (decidePhase full false existsB sizes rel).decision = Decision.copy := by
  refine ⟨rfl, ?_, ?_, rfl, rfl, rfl, ?_⟩
  · simp [decidePhase]
  · intro h
    have hb : (n == m) = false := by simpa using h
    simp [decidePhase, hb]
  · cases full <;> rfl

/-- Witness for C1 at concrete differing sizes. -/
theorem C1_witness :
    (3 : Nat) ≠ 4 ∧
    (decidePhase false true true (some (3, 4)) ("a.txt")).decision = Decision.copy :=
  ⟨by decide,
   (C1_decision_policy false true true (some (3, 4)) ("a.txt") 3 4).2.2.1 (by decide)⟩

/-! ## The counter invariant -/

theorem processFile_counts (cfg : Cfg) (st : RunState) (f : FileEntry) (st2 : RunState)
    (hc : st.totalFiles = st.filesToCopy + st.filesSkipped)
    (h : processFile cfg st f = Except.ok st2) :
    st2.totalFiles = st2.filesToCopy + st2.filesSkipped := by
  simp only [processFile] at h
  repeat' split at h
  all_goals
    first
      | exact Except.noConfusion h
      | (injection h with h; subst h; simp; omega)

theorem processFiles_counts (cfg : Cfg) (fs : List FileEntry) (st : RunState)
    (st2 : RunState) (hc : st.totalFiles = st.filesToCopy + st.filesSkipped)
    (h : processFiles cfg st fs = Except.ok st2) :
    st2.totalFiles = st2.filesToCopy + st2.filesSkipped := by
  induction fs generalizing st with
  | nil =>
    simp only [processFiles] at h
    injection h with h
    subst h
    exact hc
  | cons f fs ih =>
    simp only [processFiles] at h
    cases hp : processFile cfg st f with
    | error st3 => rw [hp] at h; exact Except.noConfusion h
    | ok st3 =>
      rw [hp] at h
      exact ih st3 (processFile_counts cfg st f st3 hc hp) h

/-- C2: for every run that reaches its final summary, the counters
satisfy `total_files = files_to_copy + files_skipped`. -/
theorem C2_counter_consistency (inp : RunInput) (st : RunState)
    (h : run_backup inp = RunResult.completed st) :
    st.totalFiles = st.filesToCopy + st.filesSkipped := by
  unfold run_backup at h
  split at h
  · exact RunResult.noConfusion h
  · split at h
    · exact RunResult.noConfusion h
    · split at h
      · exact RunResult.noConfusion h
      · have h0 : (initState inp).totalFiles =
            (initState inp).filesToCopy + (initState inp).filesSkipped := by
          unfold initState
          repeat' split
          all_goals simp
        cases hp : processFiles (runCfg inp) (initState inp) inp.files with
        | error st3 =>
          rw [hp] at h
          exact RunResult.noConfusion h
        | ok st3 =>
          rw [hp] at h
          have h3 := processFiles_counts (runCfg inp) inp.files (initState inp) st3 h0 hp
          unfold runFinish at h
          split at h
          · exact RunResult.noConfusion h
          · rename_i st4 heq
            injection heq with heq
            subst heq
            split at h <;> (injection h with h; subst h; simpa using h3)

/-- Input of the C2 witness run: two files, one copied, one hitting a
permission error. -/
def exC2Inp : RunInput :=
  { sourceDir := "src", destDir := "dst", fullBackup := true, dryRun := false,
    sourceIsDir := true, destIsDir := true, timestamp := "2024-03-01_00-00-00",
    mkRootOk := true, listdirOk := true, destEntries := [],
    files := [⟨"a.txt", "", none, true, CopyOutcome.ok⟩,
              ⟨"b.txt", "", none, true, CopyOutcome.permission⟩],
    logWriteOk := false }

/-- Final state of the C2 witness run. -/
def exC2St : RunState :=
  { totalFiles := 2, filesToCopy := 1, filesSkipped := 1,
    logMessages := [createdRootMsg ("dst/2024-03-01_00-00-00"),
                    copiedMsg ("a.txt"), permissionMsg ("b.txt")],
    stderrMessages := [logWriteFailMsg],
    actions := [("a.txt", FileAction.copied), ("b.txt", FileAction.skippedPermission)],
    dirsPresent := ["dst/2024-03-01_00-00-00"],
    effects := [Effect.createDir ("dst/2024-03-01_00-00-00"),
                Effect.copyFile ("src/a.txt") ("dst/2024-03-01_00-00-00/a.txt")] }

/-- Witness for C2: a completed two-file run with one copy and one
permission skip. -/
theorem C2_witness :
    run_backup exC2Inp = RunResult.completed exC2St ∧
    exC2St.totalFiles = exC2St.filesToCopy + exC2St.filesSkipped :=
  ⟨by decide, C2_counter_consistency exC2Inp exC2St (by decide)⟩

/-! ## C9: path validation aborts before any side effect -/

/-- C9: when the source path or the destination path is not a directory,
the run returns the diagnostic immediately: no effect is performed, no
log accumulated, no file processed. -/
theorem C9_path_validation (inp : RunInput) :
    (inp.sourceIsDir = false →
      run_backup inp = RunResult.invalid (srcInvalidMsg inp.sourceDir) ∧
      effectsOf (run_backup inp) = [] ∧ logOf (run_backup inp) = [] ∧
      actionsOf (run_backup inp) = [])
    ∧ (inp.sourceIsDir = true → inp.destIsDir = false →
      run_backup inp = RunResult.invalid (dstInvalidMsg inp.destDir) ∧
      effectsOf (run_backup inp) = [] ∧ logOf (run_backup inp) = [] ∧
      actionsOf (run_backup inp) = []) := by
  constructor
  · intro h
    have hr : run_backup inp = RunResult.invalid (srcInvalidMsg inp.sourceDir) := by
      unfold run_backup
      simp [h]
    exact ⟨hr, by simp [effectsOf, resultSt, hr], by simp [logOf, resultSt, hr],
           by simp [actionsOf, resultSt, hr]⟩
  · intro h1 h2
    have hr : run_backup inp = RunResult.invalid (dstInvalidMsg inp.destDir) := by
      unfold run_backup
      simp [h1, h2]
    exact ⟨hr, by simp [effectsOf, resultSt, hr], by simp [logOf, resultSt, hr],
           by simp [actionsOf, resultSt, hr]⟩

/-- Input of the C9 witness run: a missing source directory. -/
def exC9Inp : RunInput :=
  { sourceDir := "missing", destDir := "dst", fullBackup := false, dryRun := false,
    sourceIsDir := false, destIsDir := true, timestamp := "2024-03-01_00-00-00",
    mkRootOk := true, listdirOk := true, destEntries := [],
    files := [⟨"a.txt", "", none, true, CopyOutcome.ok⟩], logWriteOk := true }

/-- Witness for C9 on the concrete invalid-source input. -/
theorem C9_witness :
    run_backup exC9Inp = RunResult.invalid (srcInvalidMsg ("missing")) ∧
    effectsOf (run_backup exC9Inp) = [] :=
  ⟨((C9_path_validation exC9Inp).1 rfl).1, ((C9_path_validation exC9Inp).1 rfl).2.1⟩

/-! ## C10: the run log -/

/-- Drops an expected prefix off a character list. -/
def dropPrefixList : List Char → List Char → Option (List Char)
  | [], s => some s
  | _ :: _, [] => none
  | p :: ps, c :: cs => if p == c then dropPrefixList ps cs else none

theorem dropPrefixList_append (p r : List Char) :
    dropPrefixList p (p ++ r) = some r := by
  induction p with
  | nil => rfl
  | cons c cs ih => simp [dropPrefixList, ih]

/-- Drops an expected prefix off a string. -/
def stripPrefixStr (p s : String) : Option String :=
  (dropPrefixList p.data s.data).map (fun l => String.mk l)

theorem stripPrefixStr_append (p s : String) :
    stripPrefixStr p (p ++ s) = some s := by
  unfold stripPrefixStr
  have h1 : (p ++ s).data = p.data ++ s.data := rfl
  rw [h1, dropPrefixList_append]
  rfl

/-- Parses the header block of a written log back into the five run
parameters: timestamp, source, destination, backup type, dry-run flag. -/
def parseHeader (ls : List String) : Option (String × String × String × Bool × Bool) :=
  match ls with
  | l0 :: l1 :: l2 :: l3 :: l4 :: _ =>
    match stripPrefixStr ("Backup Log: ") l0 with
    | none => none
    | some ts =>
      match stripPrefixStr ("Source: ") l1 with
      | none => none
      | some src =>
        match stripPrefixStr ("Destination: ") l2 with
        | none => none
        | some dst =>
          match stripPrefixStr ("Backup Type: ") l3 with
          | none => none
          | some bt =>
            match stripPrefixStr ("Dry Run: ") l4 with
            | none => none
            | some dr =>
              match (if bt = "Full" then some true
                     else if bt = "Incremental" then some false else none) with
              | none => none
              | some full =>
                match (if dr = "Yes" then some true
                       else if dr = "No" then some false else none) with
                | none => none
                | some dry => some (ts, src, dst, full, dry)
  | _ => none

theorem logWrite_nonfatal (inp : RunInput) (b : Bool) :
    actionsOf (run_backup { inp with logWriteOk := b }) =
      actionsOf (run_backup { inp with logWriteOk := true })
    ∧ totalOf (run_backup { inp with logWriteOk := b }) =
      totalOf (run_backup { inp with logWriteOk := true })
    ∧ copyCountOf (run_backup { inp with logWriteOk := b }) =
      copyCountOf (run_backup { inp with logWriteOk := true })
    ∧ skipCountOf (run_backup { inp with logWriteOk := b }) =
      skipCountOf (run_backup { inp with logWriteOk := true })
    ∧ isCompletedRun (run_backup { inp with logWriteOk := b }) =
      isCompletedRun (run_backup { inp with logWriteOk := true })
    ∧ (effectsOf (run_backup { inp with logWriteOk := b })).filter
        (fun e => !(e.isLogWrite)) =
      (effectsOf (run_backup { inp with logWriteOk := true })).filter
        (fun e => !(e.isLogWrite)) := by
  have e : ∀ c : Bool, run_backup { inp with logWriteOk := c } =
      (if inp.sourceIsDir = false then RunResult.invalid (srcInvalidMsg inp.sourceDir)
       else if inp.destIsDir = false then RunResult.invalid (dstInvalidMsg inp.destDir)
       else if inp.mkRootOk = false then
         RunResult.mkRootFailed (mkRootFailMsg (joinPath inp.destDir inp.timestamp))
       else runFinish { inp with logWriteOk := c }
         (processFiles (runCfg inp) (initState inp) inp.files)) :=
    fun c => rfl
  rw [e b, e true]
  split
  · exact ⟨rfl, rfl, rfl, rfl, rfl, rfl⟩
  · split
    · exact ⟨rfl, rfl, rfl, rfl, rfl, rfl⟩
    · split
      · exact ⟨rfl, rfl, rfl, rfl, rfl, rfl⟩
      · cases processFiles (runCfg inp) (initState inp) inp.files with
        | error st3 => exact ⟨rfl, rfl, rfl, rfl, rfl, rfl⟩
        | ok st3 =>
          unfold runFinish
          cases b <;>
            simp [actionsOf, totalOf, copyCountOf, skipCountOf, isCompletedRun,
              effectsOf, resultSt, List.filter_append, Effect.isLogWrite]

/-- C10: the written log is the header block (timestamp, source,
destination, backup type, dry-run flag in recoverable form) followed by
every accumulated action line in order; parsing the header recovers the
five values; a failed log write is non-fatal — the run still completes
with identical counters, actions and non-log effects; and the write-log
effect of a completed run carries exactly these lines. -/
theorem C10_run_log (ts src dst : String) (full dry : Bool) (msgs : List String)
    (inp : RunInput) (b : Bool) (st : RunState) :
    logLines ts src dst full dry msgs = logHeaderLines ts src dst full dry ++ msgs
    ∧ parseHeader (logLines ts src dst full dry msgs) = some (ts, src, dst, full, dry)
    ∧ actionsOf (run_backup { inp with logWriteOk := b }) =
        actionsOf (run_backup { inp with logWriteOk := true })
    ∧ totalOf (run_backup { inp with logWriteOk := b }) =
        totalOf (run_backup { inp with logWriteOk := true })
    ∧ copyCountOf (run_backup { inp with logWriteOk := b }) =
        copyCountOf (run_backup { inp with logWriteOk := true })
    ∧ skipCountOf (run_backup { inp with logWriteOk := b }) =
        skipCountOf (run_backup { inp with logWriteOk := true })
    ∧ isCompletedRun (run_backup { inp with logWriteOk := b }) =
        isCompletedRun (run_backup { inp with logWriteOk := true })
    ∧ (effectsOf (run_backup { inp with logWriteOk := b })).filter
          (fun e => !(e.isLogWrite)) =
        (effectsOf (run_backup { inp with logWriteOk := true })).filter
          (fun e => !(e.isLogWrite))
    ∧ (run_backup inp = RunResult.completed st → inp.logWriteOk = true →
        Effect.writeLogFile (joinPath (joinPath inp.destDir inp.timestamp) ("backup_log.txt"))
          (logLines inp.timestamp inp.sourceDir inp.destDir inp.fullBackup inp.dryRun
            st.logMessages) ∈ st.effects) := by
  obtain ⟨e1, e2, e3, e4, e5, e6⟩ := logWrite_nonfatal inp b
  refine ⟨rfl, ?_, e1, e2, e3, e4, e5, e6, ?_⟩
  · unfold logLines logHeaderLines parseHeader
    simp only [List.cons_append]
    rw [stripPrefixStr_append, stripPrefixStr_append, stripPrefixStr_append,
        stripPrefixStr_append, stripPrefixStr_append]
    cases full <;> cases dry <;> simp
  · intro hr hw
    unfold run_backup at hr
    split at hr
    · exact RunResult.noConfusion hr
    · split at hr
      · exact RunResult.noConfusion hr
      · split at hr
        · exact RunResult.noConfusion hr
        · cases hp : processFiles (runCfg inp) (initState inp) inp.files with
          | error st3 =>
            rw [hp] at hr
            exact RunResult.noConfusion hr
          | ok st3 =>
            rw [hp] at hr
            unfold runFinish at hr
            rw [hw] at hr
            simp only [if_true] at hr
            injection hr with hr
            subst hr
            simp

/-- Input of the C10 witness run: one copied file, log written. -/
def exC10Inp : RunInput :=
  { sourceDir := "src", destDir := "dst", fullBackup := true, dryRun := false,
    sourceIsDir := true, destIsDir := true, timestamp := "2024-03-01_00-00-00",
    mkRootOk := true, listdirOk := true, destEntries := [],
    files := [⟨"a.txt", "", none, true, CopyOutcome.ok⟩], logWriteOk := true }

/-- Final state of the C10 witness run. -/
def exC10St : RunState :=
  { totalFiles := 1, filesToCopy := 1, filesSkipped := 0,
    logMessages := [createdRootMsg ("dst/2024-03-01_00-00-00"), copiedMsg ("a.txt")],
    stderrMessages := [],
    actions := [("a.txt", FileAction.copied)],
    dirsPresent := ["dst/2024-03-01_00-00-00"],
    effects := [Effect.createDir ("dst/2024-03-01_00-00-00"),
                Effect.copyFile ("src/a.txt") ("dst/2024-03-01_00-00-00/a.txt"),
                Effect.writeLogFile ("dst/2024-03-01_00-00-00/backup_log.txt")
                  (logLines ("2024-03-01_00-00-00") ("src") ("dst") true false
                    [createdRootMsg ("dst/2024-03-01_00-00-00"), copiedMsg ("a.txt")])] }

/-- Witness for C10 on a concrete completed run. -/
theorem C10_witness :
    run_backup exC10Inp = RunResult.completed exC10St ∧
    Effect.writeLogFile (joinPath (joinPath exC10Inp.destDir exC10Inp.timestamp) ("backup_log.txt"))
      (logLines exC10Inp.timestamp exC10Inp.sourceDir exC10Inp.destDir exC10Inp.fullBackup
        exC10Inp.dryRun exC10St.logMessages) ∈ exC10St.effects :=
  ⟨by decide,
   (C10_run_log ("x") ("x") ("x") true true [] exC10Inp true exC10St).2.2.2.2.2.2.2.2
     (by decide) rfl⟩

/-! ## C3: the fresh snapshot directory is its own baseline -/

theorem decidePhase_no_exists (full latest : Bool) (sizes : Option (Nat × Nat))
    (rel : String) :
    decidePhase full latest false sizes rel = ⟨Decision.copy, [], []⟩ := by
  cases full <;> cases latest <;> rfl

theorem decidePhase_no_latest (full existsB : Bool) (sizes : Option (Nat × Nat))
    (rel : String) :
    decidePhase full false existsB sizes rel = ⟨Decision.copy, [], []⟩ := by
  cases full <;> rfl

theorem qualNames_append_fresh (entries : List DirEntry) (ts : String)
    (hno : ∀ e ∈ entries, e.name ≠ ts) (hts : strptimeOk ts = true) :
    qualNames (listingAfterCreate entries ts) = qualNames entries ++ [ts] := by
  unfold listingAfterCreate
  have hany : entries.any (fun e => e.name == ts) = false := by
    rw [List.any_eq_false]
    intro e he
    simpa using hno e he
  rw [hany]
  simp [qualNames, List.filter_append, hts]

theorem listMaxStr_append_gt (l : List String) (ts : String)
    (h : ∀ x ∈ l, strLe ts x = false) :
    listMaxStr (l ++ [ts]) = some ts := by
  induction l with
  | nil => simp [listMaxStr]
  | cons x xs ih =>
    have hx := h x (List.mem_cons_self _ _)
    have ih2 := ih (fun y hy => h y (List.mem_cons_of_mem _ hy))
    simp only [List.cons_append, listMaxStr, List.append_eq]
    rw [ih2]
    simp [hx]

theorem find?_fresh (entries : List DirEntry) (ts : String)
    (hno : ∀ e ∈ entries, e.name ≠ ts) :
    (listingAfterCreate entries ts).find? (fun e => e.name == ts) =
      some ⟨ts, true, []⟩ := by
  unfold listingAfterCreate
  have hany : entries.any (fun e => e.name == ts) = false := by
    rw [List.any_eq_false]
    intro e he
    simpa using hno e he
  rw [hany]
  induction entries with
  | nil => simp [List.find?]
  | cons e rest ih =>
    have he : (e.name == ts) = false := by simpa using hno e (List.mem_cons_self _ _)
    simp only [List.cons_append, List.find?, he]
    exact ih (fun x hx => hno x (List.mem_cons_of_mem _ hx)) (by
      rw [List.any_eq_false]
      intro x hx
      simpa using hno x (List.mem_cons_of_mem _ hx))

theorem processFile_no_skipIdentical (cfg : Cfg) (st : RunState) (f : FileEntry)
    (st2 : RunState) (hB : cfg.baselineHas f.relPath = false)
    (hI : ∀ p ∈ st.actions, p.2 ≠ FileAction.skippedIdentical)
    (h : processFile cfg st f = Except.ok st2 ∨ processFile cfg st f = Except.error st2) :
    ∀ p ∈ st2.actions, p.2 ≠ FileAction.skippedIdentical := by
  have hd : decidePhase cfg.full cfg.latestIsSome (cfg.baselineHas f.relPath)
      f.sizes f.relPath = ⟨Decision.copy, [], []⟩ := by
    rw [hB]
    exact decidePhase_no_exists _ _ _ _
  rcases h with h | h <;>
  · simp only [processFile, hd] at h
    repeat' split at h
    all_goals
      first
        | exact Except.noConfusion h
        | (injection h with h; subst h; intro p hp; simp at hp;
           first
             | exact hI p hp
             | (rcases hp with hp | hp
                · exact hI p hp
                · subst hp; simp))

theorem processFiles_no_skipIdentical (cfg : Cfg) (fs : List FileEntry)
    (hB : ∀ rel, cfg.baselineHas rel = false) (st : RunState) (st2 : RunState)
    (hI : ∀ p ∈ st.actions, p.2 ≠ FileAction.skippedIdentical)
    (h : processFiles cfg st fs = Except.ok st2 ∨
         processFiles cfg st fs = Except.error st2) :
    ∀ p ∈ st2.actions, p.2 ≠ FileAction.skippedIdentical := by
  induction fs generalizing st with
  | nil =>
    rcases h with h | h
    · injection h with h
      subst h
      exact hI
    · exact Except.noConfusion h
  | cons f fs ih =>
    rcases h with h | h <;>
    · simp only [processFiles] at h
      cases hp : processFile cfg st f with
      | error st3 =>
        rw [hp] at h
        first
          | exact Except.noConfusion h
          | (injection h with h; subst h;
             exact processFile_no_skipIdentical cfg st f st3 (hB f.relPath) hI (Or.inr hp))
      | ok st3 =>
        rw [hp] at h
        exact ih st3 (processFile_no_skipIdentical cfg st f st3 (hB f.relPath) hI (Or.inl hp))
          (by first | exact Or.inl h | exact Or.inr h)

/-- C3: in an incremental run whose timestamp sorts after every
pre-existing snapshot name, the baseline `find_latest_backup` returns is
the snapshot directory this run itself just created; that directory is
empty, so no path is found in the baseline and no file is ever classified
identical and skipped by the size check. -/
theorem C3_own_snapshot_is_baseline (inp : RunInput)
    (hfull : inp.fullBackup = false)
    (hls : inp.listdirOk = true)
    (hts : strptimeOk inp.timestamp = true)
    (hfresh : ∀ e ∈ inp.destEntries, e.name ≠ inp.timestamp)
    (hmax : ∀ e ∈ inp.destEntries, e.isDir = true → strptimeOk e.name = true →
      strLe inp.timestamp e.name = false) :
    runLatestOpt inp = some inp.timestamp
    ∧ (∀ rel, runBaselineHas inp rel = false)
    ∧ (∀ p ∈ actionsOf (run_backup inp), p.2 ≠ FileAction.skippedIdentical) := by
  have hname : runLatestName inp = some inp.timestamp := by
    unfold runLatestName
    rw [hls]
    simp only [if_true]
    unfold findLatestName
    rw [head_sortDesc, qualNames_append_fresh inp.destEntries inp.timestamp hfresh hts]
    apply listMaxStr_append_gt
    intro x hx
    simp only [qualNames, List.mem_map, List.mem_filter] at hx
    obtain ⟨e, ⟨he, hq⟩, hn⟩ := hx
    rw [Bool.and_eq_true] at hq
    subst hn
    exact hmax e he hq.1 hq.2
  have hopt : runLatestOpt inp = some inp.timestamp := by
    unfold runLatestOpt
    rw [hfull]
    simpa using hname
  have hbase : ∀ rel, runBaselineHas inp rel = false := by
    intro rel
    unfold runBaselineHas
    rw [hopt]
    simp [find?_fresh inp.destEntries inp.timestamp hfresh]
  refine ⟨hopt, hbase, ?_⟩
  have hBcfg : ∀ rel, (runCfg inp).baselineHas rel = false := hbase
  unfold run_backup
  split
  · simp [actionsOf, resultSt]
  · split
    · simp [actionsOf, resultSt]
    · split
      · simp [actionsOf, resultSt]
      · have hIinit : ∀ p ∈ (initState inp).actions,
            p.2 ≠ FileAction.skippedIdentical := by
          unfold initState
          repeat' split
          all_goals simp
        cases hp : processFiles (runCfg inp) (initState inp) inp.files with
        | error st3 =>
          have hno := processFiles_no_skipIdentical (runCfg inp) inp.files hBcfg
            (initState inp) st3 hIinit (Or.inr hp)
          unfold runFinish
          split
          · rename_i st4 heq
            injection heq with heq
            subst heq
            simpa [actionsOf, resultSt] using hno
          · rename_i st4 heq
            exact Except.noConfusion heq
        | ok st3 =>
          have hno := processFiles_no_skipIdentical (runCfg inp) inp.files hBcfg
            (initState inp) st3 hIinit (Or.inl hp)
          unfold runFinish
          split
          · rename_i st4 heq
            exact Except.noConfusion heq
          · rename_i st4 heq
            injection heq with heq
            subst heq
            split <;> simpa [actionsOf, resultSt] using hno

/-- Input of the C3 witness run: an older identical-size snapshot exists,
yet nothing is skipped because the baseline is the fresh directory. -/
def exC3Inp : RunInput :=
  { sourceDir := "src", destDir := "dst", fullBackup := false, dryRun := false,
    sourceIsDir := true, destIsDir := true, timestamp := "2024-03-01_00-00-00",
    mkRootOk := true, listdirOk := true,
    destEntries := [⟨"2024-01-01_00-00-00", true, ["a.txt"]⟩, ⟨"archive", true, []⟩],
    files := [⟨"a.txt", "", some (5, 5), true, CopyOutcome.ok⟩], logWriteOk := true }

/-- Witness for C3 on the concrete store. -/
theorem C3_witness :
    runLatestOpt exC3Inp = some ("2024-03-01_00-00-00") ∧
    runBaselineHas exC3Inp ("a.txt") = false :=
  ⟨(C3_own_snapshot_is_baseline exC3Inp rfl rfl (by decide) (by decide) (by decide)).1,
   (C3_own_snapshot_is_baseline exC3Inp rfl rfl (by decide) (by decide) (by decide)).2.1
     ("a.txt")⟩

/-! ## Per-file step characterization, used for fault-isolation claims -/

/-- The action `processFile` records for a file, as a function of the
decision and the copy oracle. -/
def fileActionOf (cfg : Cfg) (f : FileEntry) : FileAction :=
  match (decidePhase cfg.full cfg.latestIsSome (cfg.baselineHas f.relPath)
      f.sizes f.relPath).decision with
  | Decision.skipIdentical => FileAction.skippedIdentical
  | Decision.copy =>
    if cfg.dry then FileAction.wouldCopy
    else
      match f.copyOutcome with
      | CopyOutcome.ok => FileAction.copied
      | CopyOutcome.sameFile => FileAction.skippedSameFile
      | CopyOutcome.permission => FileAction.skippedPermission
      | CopyOutcome.otherError _ => FileAction.skippedError

theorem processFile_error_spec (cfg : Cfg) (st : RunState) (f : FileEntry)
    (st2 : RunState) (h : processFile cfg st f = Except.error st2) :
    f.mkdirOk = false ∧ st2.totalFiles = st.totalFiles + 1 ∧
    st2.actions = st.actions ∧ st2.filesToCopy = st.filesToCopy ∧
    st2.filesSkipped = st.filesSkipped := by
  simp only [processFile] at h
  repeat' split at h
  all_goals
    first
      | exact Except.noConfusion h
      | (injection h with h; subst h;
         refine ⟨by assumption, by simp, by simp, by simp, by simp⟩)

theorem processFile_ok_spec (cfg : Cfg) (st : RunState) (f : FileEntry)
    (st2 : RunState) (h : processFile cfg st f = Except.ok st2) :
    st2.totalFiles = st.totalFiles + 1
    ∧ st2.actions = st.actions ++ [(f.relPath, fileActionOf cfg f)]
    ∧ st2.filesToCopy + st2.filesSkipped = st.filesToCopy + st.filesSkipped + 1
    ∧ (∀ m ∈ st.logMessages, m ∈ st2.logMessages)
    ∧ (fileActionOf cfg f = FileAction.skippedPermission →
        permissionMsg f.relPath ∈ st2.logMessages)
    ∧ (fileActionOf cfg f = FileAction.skippedSameFile →
        sameFileMsg f.relPath ∈ st2.logMessages)
    ∧ (∀ em, f.copyOutcome = CopyOutcome.otherError em →
        fileActionOf cfg f = FileAction.skippedError →
        otherErrMsg f.relPath em ∈ st2.logMessages) := by
  simp only [processFile] at h
  repeat' split at h
  all_goals
    first
      | exact Except.noConfusion h
      | (injection h with h; subst h;
         refine ⟨by simp, by simp [fileActionOf, *], by simp; omega,
                 by intro m hm; simp [hm], ?_, ?_, ?_⟩
         · intro hfa
           simp_all [fileActionOf]
         · intro hfa
           simp_all [fileActionOf]
         · intro em hco hfa
           simp_all [fileActionOf])

/-- Whether an action counts into `files_skipped` (versus
`files_to_copy`). -/
def FileAction.isSkip : FileAction → Bool
  | FileAction.skippedIdentical => true
  | FileAction.skippedSameFile => true
  | FileAction.skippedPermission => true
  | FileAction.skippedError => true
  | _ => false

theorem processFile_counters (cfg : Cfg) (st : RunState) (f : FileEntry)
    (st2 : RunState) (h : processFile cfg st f = Except.ok st2) :
    st2.filesSkipped = st.filesSkipped +
      (if (fileActionOf cfg f).isSkip then 1 else 0)
    ∧ st2.filesToCopy = st.filesToCopy +
      (if (fileActionOf cfg f).isSkip then 0 else 1) := by
  simp only [processFile] at h
  repeat' split at h
  all_goals
    first
      | exact Except.noConfusion h
      | (injection h with h; subst h;
         constructor <;> simp [fileActionOf, FileAction.isSkip, *])

theorem processFiles_ok_spec (cfg : Cfg) (fs : List FileEntry) (st : RunState)
    (hmk : ∀ f ∈ fs, f.mkdirOk = true) :
    ∃ st2, processFiles cfg st fs = Except.ok st2
    ∧ st2.totalFiles = st.totalFiles + fs.length
    ∧ st2.actions = st.actions ++ fs.map (fun f => (f.relPath, fileActionOf cfg f))
    ∧ (∀ m ∈ st.logMessages, m ∈ st2.logMessages)
    ∧ (∀ f ∈ fs, fileActionOf cfg f = FileAction.skippedPermission →
        permissionMsg f.relPath ∈ st2.logMessages)
    ∧ (∀ f ∈ fs, fileActionOf cfg f = FileAction.skippedSameFile →
        sameFileMsg f.relPath ∈ st2.logMessages)
    ∧ (∀ f ∈ fs, ∀ em, f.copyOutcome = CopyOutcome.otherError em →
        fileActionOf cfg f = FileAction.skippedError →
        otherErrMsg f.relPath em ∈ st2.logMessages) := by
  induction fs generalizing st with
  | nil =>
    exact ⟨st, rfl, by simp, by simp, fun m hm => hm, by simp, by simp, by simp⟩
  | cons f fs ih =>
    cases hp : processFile cfg st f with
    | error st3 =>
      exfalso
      have hb := (processFile_error_spec cfg st f st3 hp).1
      rw [hmk f (List.mem_cons_self _ _)] at hb
      exact Bool.noConfusion hb
    | ok st3 =>
      obtain ⟨e1, e2, e3, e4, e5, e6, e7⟩ := processFile_ok_spec cfg st f st3 hp
      obtain ⟨st4, g0, g1, g2, g3, g4, g5, g6⟩ :=
        ih st3 (fun g hg => hmk g (List.mem_cons_of_mem _ hg))
      refine ⟨st4, ?_, ?_, ?_, ?_, ?_, ?_, ?_⟩
      · simp only [processFiles, hp]
        exact g0
      · rw [g1, e1]
        simp only [List.length_cons]
        omega
      · rw [g2, e2]
        simp
      · intro m hm
        exact g3 m (e4 m hm)
      · intro g hg hfa
        rcases List.mem_cons.mp hg with hh | hh
        · subst hh
          exact g3 _ (e5 hfa)
        · exact g4 g hh hfa
      · intro g hg hfa
        rcases List.mem_cons.mp hg with hh | hh
        · subst hh
          exact g3 _ (e6 hfa)
        · exact g5 g hh hfa
      · intro g hg em hco hfa
        rcases List.mem_cons.mp hg with hh | hh
        · subst hh
          exact g3 _ (e7 em hco hfa)
        · exact g6 g hh em hco hfa

theorem processFiles_counters (cfg : Cfg) (fs : List FileEntry) (st : RunState)
    (st2 : RunState) (h : processFiles cfg st fs = Except.ok st2) :
    st2.filesSkipped = st.filesSkipped +
      (fs.filter (fun f => (fileActionOf cfg f).isSkip)).length
    ∧ st2.filesToCopy = st.filesToCopy +
      (fs.filter (fun f => !(fileActionOf cfg f).isSkip)).length := by
  induction fs generalizing st with
  | nil =>
    injection h with h
    subst h
    simp
  | cons f fs ih =>
    simp only [processFiles] at h
    cases hp : processFile cfg st f with
    | error st3 =>
      rw [hp] at h
      exact Except.noConfusion h
    | ok st3 =>
      rw [hp] at h
      obtain ⟨c1, c2⟩ := processFile_counters cfg st f st3 hp
      obtain ⟨d1, d2⟩ := ih st3 h
      constructor
      · rw [d1, c1]
        by_cases hb : (fileActionOf cfg f).isSkip = true <;>
          (simp [List.filter_cons, hb]; try omega)
      · rw [d2, c2]
        by_cases hb : (fileActionOf cfg f).isSkip = true <;>
          (simp [List.filter_cons, hb]; try omega)

theorem initState_base (inp : RunInput) :
    (initState inp).totalFiles = 0 ∧ (initState inp).filesToCopy = 0 ∧
    (initState inp).filesSkipped = 0 ∧ (initState inp).actions = [] := by
  unfold initState
  repeat' split
  all_goals simp

theorem runFinish_error_eq (inp : RunInput) (st : RunState) :
    runFinish inp (Except.error st) = RunResult.crashed st := rfl

theorem runFinish_ok_fields (inp : RunInput) (st : RunState) :
    ∃ st2, runFinish inp (Except.ok st) = RunResult.completed st2
    ∧ st2.totalFiles = st.totalFiles
    ∧ st2.filesToCopy = st.filesToCopy
    ∧ st2.filesSkipped = st.filesSkipped
    ∧ st2.actions = st.actions
    ∧ st2.logMessages = st.logMessages
    ∧ st2.effects.filter (fun e => !(e.isLogWrite)) =
        st.effects.filter (fun e => !(e.isLogWrite)) := by
  cases hw : inp.logWriteOk
  · exact ⟨{ st with stderrMessages := st.stderrMessages ++ [logWriteFailMsg] },
      by simp [runFinish, hw], rfl, rfl, rfl, rfl, rfl, rfl⟩
  · exact ⟨{ st with effects := st.effects ++
        [Effect.writeLogFile (joinPath (joinPath inp.destDir inp.timestamp) ("backup_log.txt"))
          (logLines inp.timestamp inp.sourceDir inp.destDir inp.fullBackup inp.dryRun
            st.logMessages)] },
      by simp [runFinish, hw], rfl, rfl, rfl, rfl, rfl,
      by simp [List.filter_append, Effect.isLogWrite]⟩

/-- C7: in a non-dry run where the per-file directory creations succeed,
every copy failure — same-file collision, permission denial, any other
error — is confined to its file: the run completes, every file is
traversed and gets exactly one recorded action, failures are logged with
the relative path (and reason for generic errors), and the counters
split the files into the skipped ones and the copied ones. -/
theorem C7_copy_fault_isolation (inp : RunInput)
    (h1 : inp.sourceIsDir = true) (h2 : inp.destIsDir = true)
    (h3 : inp.mkRootOk = true)
    (h5 : ∀ f ∈ inp.files, f.mkdirOk = true) :
    isCompletedRun (run_backup inp) = true
    ∧ actionsOf (run_backup inp) =
        inp.files.map (fun f => (f.relPath, fileActionOf (runCfg inp) f))
    ∧ totalOf (run_backup inp) = inp.files.length
    ∧ skipCountOf (run_backup inp) =
        (inp.files.filter (fun f => (fileActionOf (runCfg inp) f).isSkip)).length
    ∧ copyCountOf (run_backup inp) =
        (inp.files.filter (fun f => !(fileActionOf (runCfg inp) f).isSkip)).length
    ∧ (∀ f ∈ inp.files, fileActionOf (runCfg inp) f = FileAction.skippedPermission →
        permissionMsg f.relPath ∈ logOf (run_backup inp))
    ∧ (∀ f ∈ inp.files, fileActionOf (runCfg inp) f = FileAction.skippedSameFile →
        sameFileMsg f.relPath ∈ logOf (run_backup inp))
    ∧ (∀ f ∈ inp.files, ∀ em, f.copyOutcome = CopyOutcome.otherError em →
        fileActionOf (runCfg inp) f = FileAction.skippedError →
        otherErrMsg f.relPath em ∈ logOf (run_backup inp)) := by
  obtain ⟨b1, b2, b3, b4⟩ := initState_base inp
  obtain ⟨st2, g0, g1, g2, g3, g4, g5, g6⟩ :=
    processFiles_ok_spec (runCfg inp) inp.files (initState inp) h5
  obtain ⟨c1, c2⟩ := processFiles_counters (runCfg inp) inp.files (initState inp) st2 g0
  have hrun : run_backup inp = runFinish inp (Except.ok st2) := by
    unfold run_backup
    rw [h1, h2, h3]
    simp only [Bool.true_eq_false, if_false, g0]
  rw [hrun]
  obtain ⟨st3, r0, r1, r2, r3, r4, r5, r6⟩ := runFinish_ok_fields inp st2
  rw [r0]
  refine ⟨rfl, ?_, ?_, ?_, ?_, ?_, ?_, ?_⟩
  · simp only [actionsOf, resultSt]
    rw [r4, g2, b4]
    simp
  · simp only [totalOf, resultSt]
    rw [r1, g1, b1]
    simp
  · simp only [skipCountOf, resultSt]
    rw [r3, c1, b3]
    simp
  · simp only [copyCountOf, resultSt]
    rw [r2, c2, b2]
    simp
  · intro f hf hfa
    simp only [logOf, resultSt]
    rw [r5]
    exact g4 f hf hfa
  · intro f hf hfa
    simp only [logOf, resultSt]
    rw [r5]
    exact g5 f hf hfa
  · intro f hf em hco hfa
    simp only [logOf, resultSt]
    rw [r5]
    exact g6 f hf em hco hfa

/-- Input of the C7 witness run: ten files, one permission failure. -/
def exC7Inp : RunInput :=
  { sourceDir := "src", destDir := "dst", fullBackup := true, dryRun := false,
    sourceIsDir := true, destIsDir := true, timestamp := "2024-03-01_00-00-00",
    mkRootOk := true, listdirOk := true, destEntries := [],
    files := [⟨"f0", "", none, true, CopyOutcome.ok⟩,
              ⟨"f1", "", none, true, CopyOutcome.ok⟩,
              ⟨"f2", "", none, true, CopyOutcome.ok⟩,
              ⟨"f3", "", none, true, CopyOutcome.ok⟩,
              ⟨"f4", "", none, true, CopyOutcome.permission⟩,
              ⟨"f5", "", none, true, CopyOutcome.ok⟩,
              ⟨"f6", "", none, true, CopyOutcome.ok⟩,
              ⟨"f7", "", none, true, CopyOutcome.ok⟩,
              ⟨"f8", "", none, true, CopyOutcome.ok⟩,
              ⟨"f9", "", none, true, CopyOutcome.ok⟩],
    logWriteOk := true }

/-- Witness for C7: among the ten files the nine others are copied, the
run completes, and the failing one is skipped and reported. -/
theorem C7_witness :
    isCompletedRun (run_backup exC7Inp) = true ∧
    copyCountOf (run_backup exC7Inp) = 9 ∧
    skipCountOf (run_backup exC7Inp) = 1 ∧
    totalOf (run_backup exC7Inp) = 10 ∧
    permissionMsg ("f4") ∈ logOf (run_backup exC7Inp) :=
  ⟨(C7_copy_fault_isolation exC7Inp rfl rfl rfl (by decide)).1,
   by decide, by decide, by decide, by decide⟩

/-! ## C6: an intermediate-directory creation failure is NOT isolated

The `os.makedirs` call at line 128 sits outside every `try` block: when
it raises, the exception propagates out of `run_backup`, the file is not
counted as skipped and the remaining files are never traversed. -/

/-- Input of the C6 counterexample: two files, the first one failing
directory creation. -/
def exC6Inp : RunInput :=
  { sourceDir := "src", destDir := "dst", fullBackup := true, dryRun := false,
    sourceIsDir := true, destIsDir := true, timestamp := "2024-03-01_00-00-00",
    mkRootOk := true, listdirOk := true, destEntries := [],
    files := [⟨"sub/a.txt", "sub", none, false, CopyOutcome.ok⟩,
              ⟨"b.txt", "", none, true, CopyOutcome.ok⟩],
    logWriteOk := true }

/-- Counterexample to C6 as stated: with a directory-creation failure on
the first of two files the run does NOT complete — it crashes out of the
traversal; the failing file is not counted as skipped, gets no recorded
action, and the second file is never processed. -/
theorem C6_counterexample :
    isCompletedRun (run_backup exC6Inp) = false ∧
    isCrashedRun (run_backup exC6Inp) = true ∧
    totalOf (run_backup exC6Inp) = 1 ∧
    skipCountOf (run_backup exC6Inp) = 0 ∧
    actionsOf (run_backup exC6Inp) = [] := by decide

theorem processFiles_append (cfg : Cfg) (l1 l2 : List FileEntry) (st : RunState) :
    processFiles cfg st (l1 ++ l2) =
      match processFiles cfg st l1 with
      | Except.error e => Except.error e
      | Except.ok st2 => processFiles cfg st2 l2 := by
  induction l1 generalizing st with
  | nil => simp [processFiles]
  | cons f fs ih =>
    simp only [List.cons_append, processFiles]
    cases processFile cfg st f with
    | error st2 => rfl
    | ok st2 => exact ih st2

/-- The run state carried by the exception when the line-128 `os.makedirs`
raises: the file counted in the total and the decision-phase messages
appended, nothing else. -/
def mkdirCrashState (cfg : Cfg) (st : RunState) (f : FileEntry) : RunState :=
  { st with
    totalFiles := st.totalFiles + 1,
    logMessages := st.logMessages ++ (decidePhase cfg.full cfg.latestIsSome
      (cfg.baselineHas f.relPath) f.sizes f.relPath).logAdd,
    stderrMessages := st.stderrMessages ++ (decidePhase cfg.full cfg.latestIsSome
      (cfg.baselineHas f.relPath) f.sizes f.relPath).stderrAdd }

theorem processFile_error_of (cfg : Cfg) (st : RunState) (f : FileEntry)
    (hdec : (decidePhase cfg.full cfg.latestIsSome (cfg.baselineHas f.relPath)
      f.sizes f.relPath).decision = Decision.copy)
    (hmk : f.mkdirOk = false) :
    ∃ st2, processFile cfg st f = Except.error st2
      ∧ st2.totalFiles = st.totalFiles + 1 ∧ st2.actions = st.actions
      ∧ st2.filesToCopy = st.filesToCopy ∧ st2.filesSkipped = st.filesSkipped := by
  refine ⟨mkdirCrashState cfg st f, ?_, by simp [mkdirCrashState],
          by simp [mkdirCrashState], by simp [mkdirCrashState],
          by simp [mkdirCrashState]⟩
  simp [processFile, mkdirCrashState, hdec, hmk]

theorem filter_length_split (cfg : Cfg) (l : List FileEntry) :
    (l.filter (fun g => !(fileActionOf cfg g).isSkip)).length +
    (l.filter (fun g => (fileActionOf cfg g).isSkip)).length = l.length := by
  induction l with
  | nil => simp
  | cons g gs ih =>
    by_cases hb : (fileActionOf cfg g).isSkip = true <;>
      simp [List.filter_cons, hb] <;> omega

/-- C6 amended: a failure to create an intermediate destination
subdirectory for one file is NOT caught per file: the exception aborts
the whole run at that file.  The file is counted in the total but gets no
action and is not counted as skipped (or copied), and the files after it
are never traversed. -/
theorem C6_mkdir_failure_aborts (inp : RunInput) (pre post : List FileEntry)
    (f : FileEntry)
    (h1 : inp.sourceIsDir = true) (h2 : inp.destIsDir = true)
    (h3 : inp.mkRootOk = true)
    (hsplit : inp.files = pre ++ f :: post)
    (hpre : ∀ g ∈ pre, g.mkdirOk = true)
    (hf : f.mkdirOk = false)
    (hdec : (decidePhase (runCfg inp).full (runCfg inp).latestIsSome
      ((runCfg inp).baselineHas f.relPath) f.sizes f.relPath).decision =
        Decision.copy) :
    isCrashedRun (run_backup inp) = true
    ∧ isCompletedRun (run_backup inp) = false
    ∧ totalOf (run_backup inp) = pre.length + 1
    ∧ (actionsOf (run_backup inp)).length = pre.length
    ∧ copyCountOf (run_backup inp) + skipCountOf (run_backup inp) = pre.length := by
  obtain ⟨b1, b2, b3, b4⟩ := initState_base inp
  obtain ⟨st2, g0, g1, g2, g3, g4, g5, g6⟩ :=
    processFiles_ok_spec (runCfg inp) pre (initState inp) hpre
  obtain ⟨c1, c2⟩ := processFiles_counters (runCfg inp) pre (initState inp) st2 g0
  obtain ⟨st3, e0, e1, e2, e3, e4⟩ := processFile_error_of (runCfg inp) st2 f hdec hf
  have hlen : st2.actions.length = pre.length := by
    rw [g2, b4]
    simp
  have hrun : run_backup inp = RunResult.crashed st3 := by
    unfold run_backup
    rw [h1, h2, h3]
    simp only [Bool.true_eq_false, if_false]
    rw [hsplit, processFiles_append, g0]
    simp only [processFiles, e0]
    rfl
  rw [hrun]
  refine ⟨rfl, rfl, ?_, ?_, ?_⟩
  · simp only [totalOf, resultSt]
    rw [e1, g1, b1]
    simp
  · simp only [actionsOf, resultSt]
    rw [e2, hlen]
  · simp only [copyCountOf, skipCountOf, resultSt]
    rw [e3, e4, c1, c2, b2, b3]
    simpa using filter_length_split (runCfg inp) pre

/-- Witness for the amended C6 at a concrete two-file run. -/
theorem C6_witness :
    isCrashedRun (run_backup exC6Inp) = true ∧
    totalOf (run_backup exC6Inp) = 1 :=
  ⟨(C6_mkdir_failure_aborts exC6Inp []
      [⟨"b.txt", "", none, true, CopyOutcome.ok⟩]
      ⟨"sub/a.txt", "sub", none, false, CopyOutcome.ok⟩
      rfl rfl rfl rfl (by simp) rfl (by decide)).1,
   (C6_mkdir_failure_aborts exC6Inp []
      [⟨"b.txt", "", none, true, CopyOutcome.ok⟩]
      ⟨"sub/a.txt", "sub", none, false, CopyOutcome.ok⟩
      rfl rfl rfl rfl (by simp) rfl (by decide)).2.2.1⟩

/-! ## The core of the run state

The counters, the action trace, the known directories and the mutation
trace evolve independently of the accumulated log text, and the per-file
decision reads only the configuration and the file.  `coreStep` is the
loop body's action on this core; it lets two runs that differ only in
mode bookkeeping or in the dry-run flag be compared. -/

/-- The log-independent part of the run state. -/
structure CoreState where
  totalFiles : Nat
  filesToCopy : Nat
  filesSkipped : Nat
  actions : List (String × FileAction)
  dirsPresent : List String
  effects : List Effect
deriving DecidableEq

/-- Projection of the run state onto its core. -/
def coreOf (st : RunState) : CoreState :=
  ⟨st.totalFiles, st.filesToCopy, st.filesSkipped, st.actions,
   st.dirsPresent, st.effects⟩

/-- The loop body's action on the core. -/
def coreStep (cfg : Cfg) (c : CoreState) (f : FileEntry) : Except CoreState CoreState :=
  let c1 := { c with totalFiles := c.totalFiles + 1 }
  match (decidePhase cfg.full cfg.latestIsSome (cfg.baselineHas f.relPath)
      f.sizes f.relPath).decision with
  | Decision.skipIdentical =>
    Except.ok { c1 with filesSkipped := c1.filesSkipped + 1,
                        actions := c1.actions ++ [(f.relPath, FileAction.skippedIdentical)] }
  | Decision.copy =>
    if f.mkdirOk = false then Except.error c1
    else
      let destDirPath := if f.parentRel = "" then cfg.backupPath
                         else joinPath cfg.backupPath f.parentRel
      let c2 := if c1.dirsPresent.contains destDirPath then c1
                else { c1 with dirsPresent := destDirPath :: c1.dirsPresent,
                               effects := c1.effects ++ [Effect.createDir destDirPath] }
      if cfg.dry then
        Except.ok { c2 with filesToCopy := c2.filesToCopy + 1,
                            actions := c2.actions ++ [(f.relPath, FileAction.wouldCopy)] }
      else
        match f.copyOutcome with
        | CopyOutcome.ok =>
          Except.ok { c2 with filesToCopy := c2.filesToCopy + 1,
                              effects := c2.effects ++
                                [Effect.copyFile (joinPath cfg.sourceDir f.relPath)
                                  (joinPath cfg.backupPath f.relPath)],
                              actions := c2.actions ++ [(f.relPath, FileAction.copied)] }
        | CopyOutcome.sameFile =>
          Except.ok { c2 with filesSkipped := c2.filesSkipped + 1,
                              actions := c2.actions ++ [(f.relPath, FileAction.skippedSameFile)] }
        | CopyOutcome.permission =>
          Except.ok { c2 with filesSkipped := c2.filesSkipped + 1,
                              actions := c2.actions ++ [(f.relPath, FileAction.skippedPermission)] }
        | CopyOutcome.otherError _ =>
          Except.ok { c2 with filesSkipped := c2.filesSkipped + 1,
                              actions := c2.actions ++ [(f.relPath, FileAction.skippedError)] }

/-- The traversal's action on the core. -/
def coreSteps (cfg : Cfg) : CoreState → List FileEntry → Except CoreState CoreState
  | c, [] => Except.ok c
  | c, f :: fs =>
    match coreStep cfg c f with
    | Except.error c2 => Except.error c2
    | Except.ok c2 => coreSteps cfg c2 fs

theorem processFile_core (cfg : Cfg) (st : RunState) (f : FileEntry) :
    (∀ r, processFile cfg st f = Except.ok r →
      coreStep cfg (coreOf st) f = Except.ok (coreOf r))
    ∧ (∀ r, processFile cfg st f = Except.error r →
      coreStep cfg (coreOf st) f = Except.error (coreOf r)) := by
  constructor <;>
  · intro r h
    simp only [processFile] at h
    repeat' split at h
    all_goals
      first
        | exact Except.noConfusion h
        | (injection h with h; subst h; simp_all [coreStep, coreOf])

theorem processFiles_core (cfg : Cfg) (fs : List FileEntry) (st : RunState) :
    (∀ r, processFiles cfg st fs = Except.ok r →
      coreSteps cfg (coreOf st) fs = Except.ok (coreOf r))
    ∧ (∀ r, processFiles cfg st fs = Except.error r →
      coreSteps cfg (coreOf st) fs = Except.error (coreOf r)) := by
  induction fs generalizing st with
  | nil =>
    constructor
    · intro r h
      injection h with h
      subst h
      rfl
    · intro r h
      exact Except.noConfusion h
  | cons f fs ih =>
    constructor <;>
    · intro r h
      simp only [processFiles] at h
      simp only [coreSteps]
      cases hp : processFile cfg st f with
      | error st3 =>
        rw [hp] at h
        rw [(processFile_core cfg st f).2 st3 hp]
        first
          | exact Except.noConfusion h
          | (injection h with h; subst h; rfl)
      | ok st3 =>
        rw [hp] at h
        rw [(processFile_core cfg st f).1 st3 hp]
        first
          | exact (ih st3).1 r h
          | exact (ih st3).2 r h

theorem processFile_log_mono (cfg : Cfg) (st : RunState) (f : FileEntry)
    (r : RunState)
    (h : processFile cfg st f = Except.ok r ∨ processFile cfg st f = Except.error r) :
    ∀ m ∈ st.logMessages, m ∈ r.logMessages := by
  rcases h with h | h <;>
  · simp only [processFile] at h
    repeat' split at h
    all_goals
      first
        | exact Except.noConfusion h
        | (injection h with h; subst h; intro m hm; simp [hm])

theorem processFiles_log_mono (cfg : Cfg) (fs : List FileEntry) (st : RunState)
    (r : RunState)
    (h : processFiles cfg st fs = Except.ok r ∨ processFiles cfg st fs = Except.error r) :
    ∀ m ∈ st.logMessages, m ∈ r.logMessages := by
  induction fs generalizing st with
  | nil =>
    rcases h with h | h
    · injection h with h
      subst h
      exact fun m hm => hm
    · exact Except.noConfusion h
  | cons f fs ih =>
    rcases h with h | h <;>
    · simp only [processFiles] at h
      cases hp : processFile cfg st f with
      | error st3 =>
        rw [hp] at h
        first
          | exact Except.noConfusion h
          | (injection h with h; subst h;
             exact processFile_log_mono cfg st f st3 (Or.inr hp))
      | ok st3 =>
        rw [hp] at h
        intro m hm
        have hm3 := processFile_log_mono cfg st f st3 (Or.inl hp) m hm
        first
          | exact ih st3 (Or.inl h) m hm3
          | exact ih st3 (Or.inr h) m hm3

/-! ## C8: incremental with no baseline behaves like full mode -/

/-- The same invocation switched to full mode. -/
def fullVariant (inp : RunInput) : RunInput := { inp with fullBackup := true }

theorem coreSteps_congr (cfg1 cfg2 : Cfg) (fs : List FileEntry)
    (hstep : ∀ c f, coreStep cfg1 c f = coreStep cfg2 c f) (c : CoreState) :
    coreSteps cfg1 c fs = coreSteps cfg2 c fs := by
  induction fs generalizing c with
  | nil => rfl
  | cons f fs ih =>
    simp only [coreSteps]
    rw [hstep c f]
    cases coreStep cfg2 c f with
    | error c2 => rfl
    | ok c2 => exact ih c2

/-- C8: an incremental run that finds no prior snapshot makes exactly the
per-file decisions of the full-mode run on the same input — same action
trace, counters, completion or crash, and same non-log mutations — and
the degradation is recorded in its log. -/
theorem C8_degrades_to_full (inp : RunInput)
    (hfull : inp.fullBackup = false)
    (hnone : runLatestName inp = none)
    (h1 : inp.sourceIsDir = true) (h2 : inp.destIsDir = true)
    (h3 : inp.mkRootOk = true) :
    actionsOf (run_backup inp) = actionsOf (run_backup (fullVariant inp))
    ∧ totalOf (run_backup inp) = totalOf (run_backup (fullVariant inp))
    ∧ copyCountOf (run_backup inp) = copyCountOf (run_backup (fullVariant inp))
    ∧ skipCountOf (run_backup inp) = skipCountOf (run_backup (fullVariant inp))
    ∧ isCompletedRun (run_backup inp) = isCompletedRun (run_backup (fullVariant inp))
    ∧ isCrashedRun (run_backup inp) = isCrashedRun (run_backup (fullVariant inp))
    ∧ (effectsOf (run_backup inp)).filter (fun e => !(e.isLogWrite)) =
        (effectsOf (run_backup (fullVariant inp))).filter (fun e => !(e.isLogWrite))
    ∧ noPrevMsg ∈ logOf (run_backup inp) := by
  have hopt : runLatestOpt inp = none := by
    unfold runLatestOpt
    rw [hfull]
    simpa using hnone
  have hl1 : (runCfg inp).latestIsSome = false := by
    simp [runCfg, hopt]
  have hl2 : (runCfg (fullVariant inp)).latestIsSome = false := by
    simp [runCfg, runLatestOpt, fullVariant]
  have hstep : ∀ c f, coreStep (runCfg inp) c f =
      coreStep (runCfg (fullVariant inp)) c f := by
    intro c f
    simp only [coreStep]
    rw [hl1, hl2, decidePhase_no_latest, decidePhase_no_latest]
    rfl
  have hfold := coreSteps_congr (runCfg inp) (runCfg (fullVariant inp)) inp.files hstep
  have hcore0 : coreOf (initState inp) = coreOf (initState (fullVariant inp)) := by
    simp [initState, coreOf, hfull, hnone, fullVariant]
  have e1 : run_backup inp =
      runFinish inp (processFiles (runCfg inp) (initState inp) inp.files) := by
    unfold run_backup
    simp [h1, h2, h3]
  have e2 : run_backup (fullVariant inp) = runFinish (fullVariant inp)
      (processFiles (runCfg (fullVariant inp)) (initState (fullVariant inp)) inp.files) := by
    unfold run_backup
    simp [fullVariant, h1, h2, h3]
  have hlog0 : noPrevMsg ∈ (initState inp).logMessages := by
    simp [initState, hfull, hnone]
  cases hp1 : processFiles (runCfg inp) (initState inp) inp.files with
  | error r1 =>
    have hc1 := (processFiles_core (runCfg inp) inp.files (initState inp)).2 r1 hp1
    rw [hfold (coreOf (initState inp)), hcore0] at hc1
    cases hp2 : processFiles (runCfg (fullVariant inp)) (initState (fullVariant inp))
        inp.files with
    | ok r2 =>
      exfalso
      have hc2 := (processFiles_core (runCfg (fullVariant inp)) inp.files
        (initState (fullVariant inp))).1 r2 hp2
      rw [hc2] at hc1
      exact Except.noConfusion hc1
    | error r2 =>
      have hc2 := (processFiles_core (runCfg (fullVariant inp)) inp.files
        (initState (fullVariant inp))).2 r2 hp2
      rw [hc2] at hc1
      injection hc1 with hc1
      simp only [coreOf, CoreState.mk.injEq] at hc1
      obtain ⟨q1, q2, q3, q4, q5, q6⟩ := hc1
      rw [e1, e2, hp1, hp2, runFinish_error_eq, runFinish_error_eq]
      refine ⟨?_, ?_, ?_, ?_, rfl, rfl, ?_, ?_⟩
      · simpa [actionsOf, resultSt] using q4.symm
      · simpa [totalOf, resultSt] using q1.symm
      · simpa [copyCountOf, resultSt] using q2.symm
      · simpa [skipCountOf, resultSt] using q3.symm
      · simp only [effectsOf, resultSt]
        rw [q6]
      · simp only [logOf, resultSt]
        exact processFiles_log_mono (runCfg inp) inp.files (initState inp) r1
          (Or.inr hp1) noPrevMsg hlog0
  | ok r1 =>
    have hc1 := (processFiles_core (runCfg inp) inp.files (initState inp)).1 r1 hp1
    rw [hfold (coreOf (initState inp)), hcore0] at hc1
    cases hp2 : processFiles (runCfg (fullVariant inp)) (initState (fullVariant inp))
        inp.files with
    | error r2 =>
      exfalso
      have hc2 := (processFiles_core (runCfg (fullVariant inp)) inp.files
        (initState (fullVariant inp))).2 r2 hp2
      rw [hc2] at hc1
      exact Except.noConfusion hc1
    | ok r2 =>
      have hc2 := (processFiles_core (runCfg (fullVariant inp)) inp.files
        (initState (fullVariant inp))).1 r2 hp2
      rw [hc2] at hc1
      injection hc1 with hc1
      simp only [coreOf, CoreState.mk.injEq] at hc1
      obtain ⟨q1, q2, q3, q4, q5, q6⟩ := hc1
      obtain ⟨s1, s0, sa, sb, sc, sd, se, sf⟩ := runFinish_ok_fields inp r1
      obtain ⟨s2, t0, ta, tb, tc, td, te, tf⟩ :=
        runFinish_ok_fields (fullVariant inp) r2
      rw [e1, e2, hp1, hp2, s0, t0]
      refine ⟨?_, ?_, ?_, ?_, rfl, rfl, ?_, ?_⟩
      · simp only [actionsOf, resultSt]
        rw [sd, td, q4]
      · simp only [totalOf, resultSt]
        rw [sa, ta, q1]
      · simp only [copyCountOf, resultSt]
        rw [sb, tb, q2]
      · simp only [skipCountOf, resultSt]
        rw [sc, tc, q3]
      · simp only [effectsOf, resultSt]
        rw [sf, tf, q6]
      · simp only [logOf, resultSt]
        rw [se]
        exact processFiles_log_mono (runCfg inp) inp.files (initState inp) r1
          (Or.inl hp1) noPrevMsg hlog0

/-- Input of the C8 witness run: incremental, the destination listing
fails, so no baseline is found and the run degrades to full. -/
def exC8Inp : RunInput :=
  { sourceDir := "src", destDir := "dst", fullBackup := false, dryRun := false,
    sourceIsDir := true, destIsDir := true, timestamp := "2024-03-01_00-00-00",
    mkRootOk := true, listdirOk := false, destEntries := [],
    files := [⟨"a.txt", "", some (5, 5), true, CopyOutcome.ok⟩], logWriteOk := false }

/-- Witness for C8: the degraded incremental run and the full run make
the same decisions and record the degradation. -/
theorem C8_witness :
    actionsOf (run_backup exC8Inp) = actionsOf (run_backup (fullVariant exC8Inp)) ∧
    noPrevMsg ∈ logOf (run_backup exC8Inp) :=
  ⟨(C8_degrades_to_full exC8Inp rfl (by decide) rfl rfl rfl).1,
   (C8_degrades_to_full exC8Inp rfl (by decide) rfl rfl rfl).2.2.2.2.2.2.2⟩

/-! ## C5: dry run

Line 128's `os.makedirs` is NOT guarded by `if not dry_run`, so a dry run
does create the intermediate destination subdirectories of nested files;
it copies no file content and its counts and decisions match the real
run in which every copy succeeds. -/

/-- Input of the C5 counterexample: a dry run over one nested file. -/
def exC5Inp : RunInput :=
  { sourceDir := "src", destDir := "dst", fullBackup := true, dryRun := true,
    sourceIsDir := true, destIsDir := true, timestamp := "2024-01-01_00-00-00",
    mkRootOk := true, listdirOk := true, destEntries := [],
    files := [⟨"sub/a.txt", "sub", none, true, CopyOutcome.ok⟩], logWriteOk := true }

/-- Counterexample to C5 as stated: this dry run creates a directory
under the destination that is neither the snapshot root nor the log
file. -/
theorem C5_counterexample :
    exC5Inp.dryRun = true ∧
    Effect.createDir (joinPath (joinPath ("dst") ("2024-01-01_00-00-00")) ("sub"))
      ∈ effectsOf (run_backup exC5Inp) ∧
    joinPath (joinPath ("dst") ("2024-01-01_00-00-00")) ("sub") ≠
      joinPath ("dst") ("2024-01-01_00-00-00") := by decide

theorem processFile_dry_noCopy (cfg : Cfg) (st : RunState) (f : FileEntry)
    (r : RunState) (hdry : cfg.dry = true)
    (hInv : ∀ e ∈ st.effects, e.isCopy = false)
    (h : processFile cfg st f = Except.ok r ∨ processFile cfg st f = Except.error r) :
    ∀ e ∈ r.effects, e.isCopy = false := by
  rcases h with h | h <;>
  · simp only [processFile] at h
    repeat' split at h
    all_goals
      first
        | exact Except.noConfusion h
        | exact absurd hdry (by assumption)
        | (injection h with h; subst h; intro e he; simp at he;
           first
             | exact hInv e he
             | (rcases he with he | he
                · exact hInv e he
                · subst he; rfl))

theorem processFiles_dry_noCopy (cfg : Cfg) (fs : List FileEntry) (st : RunState)
    (r : RunState) (hdry : cfg.dry = true)
    (hInv : ∀ e ∈ st.effects, e.isCopy = false)
    (h : processFiles cfg st fs = Except.ok r ∨ processFiles cfg st fs = Except.error r) :
    ∀ e ∈ r.effects, e.isCopy = false := by
  induction fs generalizing st with
  | nil =>
    rcases h with h | h
    · injection h with h
      subst h
      exact hInv
    · exact Except.noConfusion h
  | cons f fs ih =>
    rcases h with h | h <;>
    · simp only [processFiles] at h
      cases hp : processFile cfg st f with
      | error st3 =>
        rw [hp] at h
        first
          | exact Except.noConfusion h
          | (injection h with h; subst h;
             exact processFile_dry_noCopy cfg st f st3 hdry hInv (Or.inr hp))
      | ok st3 =>
        rw [hp] at h
        have hInv3 := processFile_dry_noCopy cfg st f st3 hdry hInv (Or.inl hp)
        first
          | exact ih st3 hInv3 (Or.inl h)
          | exact ih st3 hInv3 (Or.inr h)

theorem processFile_createDir_inv (cfg : Cfg) (st : RunState) (f : FileEntry)
    (r : RunState)
    (h : processFile cfg st f = Except.ok r ∨ processFile cfg st f = Except.error r)
    (p : String) (hmem : Effect.createDir p ∈ r.effects) :
    Effect.createDir p ∈ st.effects ∨ p = cfg.backupPath ∨
      p = joinPath cfg.backupPath f.parentRel := by
  rcases h with h | h <;>
  · simp only [processFile] at h
    repeat' split at h
    all_goals
      first
        | exact Except.noConfusion h
        | (injection h with h; subst h; simp at hmem;
           first
             | exact Or.inl hmem
             | (rcases hmem with hm | hm
                · exact Or.inl hm
                · first
                    | exact Or.inr (Or.inl hm)
                    | exact Or.inr (Or.inr hm)))

theorem processFiles_createDir_inv (cfg : Cfg) (fs : List FileEntry) (st : RunState)
    (r : RunState)
    (h : processFiles cfg st fs = Except.ok r ∨ processFiles cfg st fs = Except.error r)
    (p : String) (hmem : Effect.createDir p ∈ r.effects) :
    Effect.createDir p ∈ st.effects ∨ p = cfg.backupPath ∨
      ∃ f ∈ fs, p = joinPath cfg.backupPath f.parentRel := by
  induction fs generalizing st with
  | nil =>
    rcases h with h | h
    · injection h with h
      subst h
      exact Or.inl hmem
    · exact Except.noConfusion h
  | cons f fs ih =>
    rcases h with h | h <;>
    · simp only [processFiles] at h
      cases hp : processFile cfg st f with
      | error st3 =>
        rw [hp] at h
        first
          | exact Except.noConfusion h
          | (injection h with h; subst h;
             rcases processFile_createDir_inv cfg st f st3 (Or.inr hp) p hmem with
               hm | hm | hm
             · exact Or.inl hm
             · exact Or.inr (Or.inl hm)
             · exact Or.inr (Or.inr ⟨f, List.mem_cons_self _ _, hm⟩))
      | ok st3 =>
        rw [hp] at h
        have step := fun hmem3 =>
          processFile_createDir_inv cfg st f st3 (Or.inl hp) p hmem3
        have rest : Effect.createDir p ∈ st3.effects ∨ p = cfg.backupPath ∨
            ∃ g ∈ fs, p = joinPath cfg.backupPath g.parentRel := by
          first
            | exact ih st3 (Or.inl h)
            | exact ih st3 (Or.inr h)
        rcases rest with hm | hm | ⟨g, hg, hm⟩
        · rcases step hm with hm2 | hm2 | hm2
          · exact Or.inl hm2
          · exact Or.inr (Or.inl hm2)
          · exact Or.inr (Or.inr ⟨f, List.mem_cons_self _ _, hm2⟩)
        · exact Or.inr (Or.inl hm)
        · exact Or.inr (Or.inr ⟨g, List.mem_cons_of_mem _ hg, hm⟩)

/-- How a real (wet) run's action reads in the corresponding dry run. -/
def wetToDry (p : String × FileAction) : String × FileAction :=
  (p.1, if p.2 = FileAction.copied then FileAction.wouldCopy else p.2)

/-- Forces a file's copy to succeed, for comparing a dry run with the
real run in which every copy works. -/
def forceOk (f : FileEntry) : FileEntry := { f with copyOutcome := CopyOutcome.ok }

/-- Reads a wet core as the corresponding dry core: copied actions become
would-copy, file-content copies disappear. -/
def dryCoreOf (c : CoreState) : CoreState :=
  { c with actions := c.actions.map wetToDry,
           effects := c.effects.filter (fun e => !(e.isCopy)) }

theorem coreStep_dryWet (cfgD cfgW : Cfg) (c : CoreState) (f : FileEntry)
    (hdryD : cfgD.dry = true) (hdryW : cfgW.dry = false)
    (hfull : cfgD.full = cfgW.full) (hl : cfgD.latestIsSome = cfgW.latestIsSome)
    (hb : cfgD.baselineHas f.relPath = cfgW.baselineHas f.relPath)
    (hbp : cfgD.backupPath = cfgW.backupPath) :
    coreStep cfgD (dryCoreOf c) f =
      match coreStep cfgW c (forceOk f) with
      | Except.ok c2 => Except.ok (dryCoreOf c2)
      | Except.error c2 => Except.error (dryCoreOf c2) := by
  simp only [coreStep, forceOk]
  rw [hdryD, hdryW, hfull, hl, hb, hbp]
  cases hd : (decidePhase cfgW.full cfgW.latestIsSome (cfgW.baselineHas f.relPath)
      f.sizes f.relPath).decision with
  | skipIdentical =>
    simp [dryCoreOf, wetToDry]
  | copy =>
    by_cases hmk : f.mkdirOk = false
    · simp [hmk, dryCoreOf]
    · by_cases hcont : (if f.parentRel = "" then cfgW.backupPath
          else joinPath cfgW.backupPath f.parentRel) ∈ c.dirsPresent
      · simp [hmk, hcont, dryCoreOf, wetToDry, List.filter_append,
          List.map_append, Effect.isCopy]
      · simp [hmk, hcont, dryCoreOf, wetToDry, List.filter_append,
          List.map_append, Effect.isCopy]

theorem coreSteps_dryWet (cfgD cfgW : Cfg) (fs : List FileEntry)
    (hdryD : cfgD.dry = true) (hdryW : cfgW.dry = false)
    (hfull : cfgD.full = cfgW.full) (hl : cfgD.latestIsSome = cfgW.latestIsSome)
    (hb : ∀ rel, cfgD.baselineHas rel = cfgW.baselineHas rel)
    (hbp : cfgD.backupPath = cfgW.backupPath) (c : CoreState) :
    coreSteps cfgD (dryCoreOf c) fs =
      match coreSteps cfgW c (fs.map forceOk) with
      | Except.ok c2 => Except.ok (dryCoreOf c2)
      | Except.error c2 => Except.error (dryCoreOf c2) := by
  induction fs generalizing c with
  | nil => rfl
  | cons f fs ih =>
    simp only [coreSteps, List.map_cons]
    rw [coreStep_dryWet cfgD cfgW c f hdryD hdryW hfull hl (hb f.relPath) hbp]
    cases coreStep cfgW c (forceOk f) with
    | error c2 => rfl
    | ok c2 => exact ih c2

/-- The same invocation as a real run in which every copy succeeds. -/
def wetVariant (inp : RunInput) : RunInput :=
  { inp with dryRun := false, files := inp.files.map forceOk }

theorem initState_effects (inp : RunInput) :
    (initState inp).effects =
      (if inp.destEntries.any (fun e => e.name == inp.timestamp) then []
       else [Effect.createDir (joinPath inp.destDir inp.timestamp)]) := by
  unfold initState
  repeat' split
  all_goals rfl

theorem initState_noCopyEffects (inp : RunInput) :
    ∀ e ∈ (initState inp).effects, e.isCopy = false := by
  intro e he
  rw [initState_effects] at he
  split at he
  · exact absurd he (by simp)
  · simp at he
    subst he
    rfl

theorem initState_createDir (inp : RunInput) (p : String)
    (h : Effect.createDir p ∈ (initState inp).effects) :
    p = joinPath inp.destDir inp.timestamp := by
  rw [initState_effects] at h
  split at h
  · exact absurd h (by simp)
  · simp at h
    exact h

/-- C5 amended: a dry run copies no file content; the only directories it
creates under the destination are the snapshot root and the intermediate
parent directories of listed files (the `os.makedirs` of line 128 runs
even in dry-run mode); and its counters, per-file decisions and
completion behaviour match the real run in which every copy succeeds,
with would-copy in place of copied. -/
theorem C5_dry_run_behavior (inp : RunInput) (hdry : inp.dryRun = true) :
    (∀ e ∈ effectsOf (run_backup inp), e.isCopy = false)
    ∧ (∀ p, Effect.createDir p ∈ effectsOf (run_backup inp) →
        p = joinPath inp.destDir inp.timestamp ∨
        ∃ f ∈ inp.files, p = joinPath (joinPath inp.destDir inp.timestamp) f.parentRel)
    ∧ actionsOf (run_backup inp) = (actionsOf (run_backup (wetVariant inp))).map wetToDry
    ∧ totalOf (run_backup inp) = totalOf (run_backup (wetVariant inp))
    ∧ copyCountOf (run_backup inp) = copyCountOf (run_backup (wetVariant inp))
    ∧ skipCountOf (run_backup inp) = skipCountOf (run_backup (wetVariant inp))
    ∧ isCompletedRun (run_backup inp) = isCompletedRun (run_backup (wetVariant inp))
    ∧ isCrashedRun (run_backup inp) = isCrashedRun (run_backup (wetVariant inp)) := by
  have e1 : run_backup inp =
      (if inp.sourceIsDir = false then RunResult.invalid (srcInvalidMsg inp.sourceDir)
       else if inp.destIsDir = false then RunResult.invalid (dstInvalidMsg inp.destDir)
       else if inp.mkRootOk = false then
         RunResult.mkRootFailed (mkRootFailMsg (joinPath inp.destDir inp.timestamp))
       else runFinish inp (processFiles (runCfg inp) (initState inp) inp.files)) := rfl
  have e2 : run_backup (wetVariant inp) =
      (if inp.sourceIsDir = false then RunResult.invalid (srcInvalidMsg inp.sourceDir)
       else if inp.destIsDir = false then RunResult.invalid (dstInvalidMsg inp.destDir)
       else if inp.mkRootOk = false then
         RunResult.mkRootFailed (mkRootFailMsg (joinPath inp.destDir inp.timestamp))
       else runFinish (wetVariant inp)
         (processFiles (runCfg (wetVariant inp)) (initState inp)
           (inp.files.map forceOk))) := rfl
  rw [e1, e2]
  split
  · exact ⟨by simp [effectsOf, resultSt], by simp [effectsOf, resultSt],
      by simp [actionsOf, resultSt], rfl, rfl, rfl, rfl, rfl⟩
  · split
    · exact ⟨by simp [effectsOf, resultSt], by simp [effectsOf, resultSt],
        by simp [actionsOf, resultSt], rfl, rfl, rfl, rfl, rfl⟩
    · split
      · exact ⟨by simp [effectsOf, resultSt], by simp [effectsOf, resultSt],
          by simp [actionsOf, resultSt], rfl, rfl, rfl, rfl, rfl⟩
      · have hdc0 : dryCoreOf (coreOf (initState inp)) = coreOf (initState inp) := by
          have hact := (initState_base inp).2.2.2
          unfold dryCoreOf coreOf
          rw [hact, initState_effects]
          split
          · simp
          · simp [Effect.isCopy]
        have hInvInit := initState_noCopyEffects inp
        cases hp1 : processFiles (runCfg inp) (initState inp) inp.files with
        | ok r1 =>
          have hnc1 := processFiles_dry_noCopy (runCfg inp) inp.files (initState inp)
            r1 hdry hInvInit (Or.inl hp1)
          have hc1 := (processFiles_core (runCfg inp) inp.files (initState inp)).1 r1 hp1
          rw [← hdc0] at hc1
          rw [coreSteps_dryWet (runCfg inp) (runCfg (wetVariant inp)) inp.files hdry
            rfl rfl rfl (fun rel => rfl) rfl (coreOf (initState inp))] at hc1
          cases hp2 : processFiles (runCfg (wetVariant inp)) (initState inp)
              (inp.files.map forceOk) with
          | error r2 =>
            have hc2 := (processFiles_core (runCfg (wetVariant inp))
              (inp.files.map forceOk) (initState inp)).2 r2 hp2
            rw [hc2] at hc1
            exact absurd hc1 (by simp)
          | ok r2 =>
            have hc2 := (processFiles_core (runCfg (wetVariant inp))
              (inp.files.map forceOk) (initState inp)).1 r2 hp2
            rw [hc2] at hc1
            simp only [Except.ok.injEq] at hc1
            simp only [dryCoreOf, coreOf, CoreState.mk.injEq] at hc1
            obtain ⟨q1, q2, q3, q4, q5, q6⟩ := hc1
            obtain ⟨s1, s0, sa, sb, sc, sd, se, sf⟩ := runFinish_ok_fields inp r1
            obtain ⟨s2, t0, ta, tb, tc, td, te, tf⟩ :=
              runFinish_ok_fields (wetVariant inp) r2
            rw [s0, t0]
            refine ⟨?_, ?_, ?_, ?_, ?_, ?_, rfl, rfl⟩
            · intro e he
              simp only [effectsOf, resultSt] at he
              by_contra hcc
              have hct : e.isCopy = true := by
                revert hcc
                cases e.isCopy <;> simp
              have hnl : e.isLogWrite = false := by
                cases e <;> simp_all [Effect.isCopy, Effect.isLogWrite]
              have hm2 : e ∈ s1.effects.filter (fun x => !(x.isLogWrite)) :=
                List.mem_filter.mpr ⟨he, by simp [hnl]⟩
              rw [sf] at hm2
              have hm3 := (List.mem_filter.mp hm2).1
              have hfin := hnc1 e hm3
              rw [hct] at hfin
              exact Bool.noConfusion hfin
            · intro p hp
              simp only [effectsOf, resultSt] at hp
              have hm2 : Effect.createDir p ∈ s1.effects.filter (fun x => !(x.isLogWrite)) :=
                List.mem_filter.mpr ⟨hp, by simp [Effect.isLogWrite]⟩
              rw [sf] at hm2
              have hm3 := (List.mem_filter.mp hm2).1
              rcases processFiles_createDir_inv (runCfg inp) inp.files (initState inp)
                  r1 (Or.inl hp1) p hm3 with hm | hm | ⟨g, hg, hm⟩
              · exact Or.inl (initState_createDir inp p hm)
              · exact Or.inl hm
              · exact Or.inr ⟨g, hg, hm⟩
            · simp only [actionsOf, resultSt]
              rw [sd, td, ← q4]
            · simp only [totalOf, resultSt]
              rw [sa, ta, q1]
            · simp only [copyCountOf, resultSt]
              rw [sb, tb, q2]
            · simp only [skipCountOf, resultSt]
              rw [sc, tc, q3]
        | error r1 =>
          have hnc1 := processFiles_dry_noCopy (runCfg inp) inp.files (initState inp)
            r1 hdry hInvInit (Or.inr hp1)
          have hc1 := (processFiles_core (runCfg inp) inp.files (initState inp)).2 r1 hp1
          rw [← hdc0] at hc1
          rw [coreSteps_dryWet (runCfg inp) (runCfg (wetVariant inp)) inp.files hdry
            rfl rfl rfl (fun rel => rfl) rfl (coreOf (initState inp))] at hc1
          cases hp2 : processFiles (runCfg (wetVariant inp)) (initState inp)
              (inp.files.map forceOk) with
          | ok r2 =>
            have hc2 := (processFiles_core (runCfg (wetVariant inp))
              (inp.files.map forceOk) (initState inp)).1 r2 hp2
            rw [hc2] at hc1
            exact absurd hc1 (by simp)
          | error r2 =>
            have hc2 := (processFiles_core (runCfg (wetVariant inp))
              (inp.files.map forceOk) (initState inp)).2 r2 hp2
            rw [hc2] at hc1
            simp only [Except.error.injEq] at hc1
            simp only [dryCoreOf, coreOf, CoreState.mk.injEq] at hc1
            obtain ⟨q1, q2, q3, q4, q5, q6⟩ := hc1
            rw [runFinish_error_eq, runFinish_error_eq]
            refine ⟨?_, ?_, ?_, ?_, ?_, ?_, rfl, rfl⟩
            · intro e he
              simp only [effectsOf, resultSt] at he
              by_contra hcc
              have hct : e.isCopy = true := by
                revert hcc
                cases e.isCopy <;> simp
              have hfin := hnc1 e he
              rw [hct] at hfin
              exact Bool.noConfusion hfin
            · intro p hp
              simp only [effectsOf, resultSt] at hp
              rcases processFiles_createDir_inv (runCfg inp) inp.files (initState inp)
                  r1 (Or.inr hp1) p hp with hm | hm | ⟨g, hg, hm⟩
              · exact Or.inl (initState_createDir inp p hm)
              · exact Or.inl hm
              · exact Or.inr ⟨g, hg, hm⟩
            · simp only [actionsOf, resultSt]
              rw [← q4]
            · simp only [totalOf, resultSt]
              rw [q1]
            · simp only [copyCountOf, resultSt]
              rw [q2]
            · simp only [skipCountOf, resultSt]
              rw [q3]

/-- Witness for the amended C5 on the concrete nested-file dry run. -/
theorem C5_witness :
    exC5Inp.dryRun = true ∧
    actionsOf (run_backup exC5Inp) =
      (actionsOf (run_backup (wetVariant exC5Inp))).map wetToDry ∧
    copyCountOf (run_backup exC5Inp) = copyCountOf (run_backup (wetVariant exC5Inp)) :=
  ⟨rfl, (C5_dry_run_behavior exC5Inp rfl).2.2.1,
   (C5_dry_run_behavior exC5Inp rfl).2.2.2.2.1⟩
